import Mathlib

/-!
Verification of the paginated flow-layout engine of the pdf-extractor
repository (src/generate_quote.py and src/app.py).

Shallow embedding conventions:
* Python strings are modelled as `List Char`; Python `None` / numbers /
  strings flowing through duck-typed dict fields are modelled by `PyVal`.
* Vertical layout lengths are modelled exactly in `ℤ`, in units of one
  hundredth of a millimetre.  Every cursor-affecting constant in the
  source is an exact decimal multiple of ReportLab's `mm` (`72 / 25.4`
  points), so scaling all coordinates by the positive factor
  `mm / 100` is an order isomorphism: every comparison, maximum,
  minimum and exact division (`/3`) in the source is preserved.
  `mmU = 100` is one millimetre.
* `c.stringWidth(text, font, size)` is modelled by an arbitrary measure
  function; text-wrapping code is generic over any linearly ordered
  width type, since it only compares measured widths against the
  supplied maximum.  Renderers take a `Measure` valued in `ℤ`.
* Money amounts stay in `ℚ` (they never interact with the cursor).
* Drawing calls that neither move the layout cursor nor decide a page
  break (colours, fonts, rectangles, in-row text placement and
  truncation) are not modelled; the model instead records an event
  trace (`Ev`) with the page each block lands on, together with the
  cursor `y` and the 1-based physical page counter.
-/

namespace PdfX

/-- Python `str.strip()` on both ends (whitespace). -/
def pstrip (s : List Char) : List Char :=
  ((s.dropWhile Char.isWhitespace).reverse.dropWhile Char.isWhitespace).reverse

/-- Auxiliary accumulator for `pwords`. -/
def pwordsAux : List Char → List Char → List (List Char)
  | acc, [] => if acc.isEmpty then [] else [acc.reverse]
  | acc, c :: rest =>
      if c.isWhitespace then
        if acc.isEmpty then pwordsAux [] rest else acc.reverse :: pwordsAux [] rest
      else pwordsAux (c :: acc) rest

/-- Python `str.split()` with no argument: split on whitespace runs,
producing no empty words. -/
def pwords (s : List Char) : List (List Char) := pwordsAux [] s

/-- Auxiliary accumulator for `psplitNl`. -/
def psplitNlAux : List Char → List Char → List (List Char)
  | acc, [] => [acc.reverse]
  | acc, c :: rest =>
      if c = '\n' then acc.reverse :: psplitNlAux [] rest
      else psplitNlAux (c :: acc) rest

/-- Python `str.split("\n")`: split on newlines, keeping empty segments. -/
def psplitNl (s : List Char) : List (List Char) := psplitNlAux [] s

/-- Python `str.lower()` (ASCII reading). -/
def plower (s : List Char) : List Char := s.map Char.toLower

/-- A duck-typed Python value as it flows through the dict payloads:
`None`, a string, a number, or a boolean. -/
inductive PyVal where
  | none
  | str (s : List Char)
  | num (q : ℚ)
  | bool (b : Bool)
deriving DecidableEq

/-- Python truthiness of a `PyVal`. -/
def PyVal.truthy : PyVal → Bool
  | .none => false
  | .str s => !s.isEmpty
  | .num q => decide (q ≠ 0)
  | .bool b => b

/-- Python `a or b` on duck-typed values. -/
def pyOr (a b : PyVal) : PyVal := if a.truthy then a else b

/-- Longest leading run of decimal digits, returned as digit values,
with the rest of the input. -/
def readDigits : List Char → List ℕ × List Char
  | [] => ([], [])
  | c :: rest =>
      if c.isDigit then
        let p := readDigits rest
        ((c.toNat - 48) :: p.1, p.2)
      else ([], c :: rest)

/-- Value of a digit list read as a base-10 integer part. -/
def digitsVal (ds : List ℕ) : ℕ := ds.foldl (fun a d => a * 10 + d) 0

/-- Value of a digit list read as a base-10 fraction part. -/
def fracVal : List ℕ → ℚ
  | [] => 0
  | d :: ds => ((d : ℚ) + fracVal ds) / 10

/-- Model of Python `float(s)` on a (pre-stripped) string: an optional
sign followed by `digits`, `digits.digits`, `digits.` or `.digits`.
(Exponent, `inf` and `nan` literals are not modelled; no claim depends
on them.)  Returns `none` where Python raises `ValueError`. -/
def parseFloat (s : List Char) : Option ℚ :=
  let core : List Char → Option ℚ := fun t =>
    let p := readDigits t
    match p.2 with
    | [] => if p.1.isEmpty then Option.none else some (digitsVal p.1 : ℚ)
    | '.' :: t2 =>
        let q := readDigits t2
        if q.2.isEmpty ∧ ¬(p.1.isEmpty ∧ q.1.isEmpty) then
          some ((digitsVal p.1 : ℚ) + fracVal q.1)
        else Option.none
    | _ => Option.none
  match s with
  | '+' :: t => core t
  | '-' :: t => (core t).map Neg.neg
  | t => core t

/-- Model of Python `float(v)` on a duck-typed value: `none` where the
Python call raises (`TypeError` on `None`, `ValueError` on a bad
string). -/
def pyFloat : PyVal → Option ℚ
  | .none => Option.none
  | .num q => some q
  | .bool b => some (if b then 1 else 0)
  | .str s => parseFloat (pstrip s)

/-- Truncation toward zero, as Python `int()` applied to a float. -/
def qtrunc (q : ℚ) : ℤ := if 0 ≤ q then ⌊q⌋ else ⌈q⌉

/-- Model of Python `int(s)` on a (pre-stripped) string: optional sign
followed by one or more digits only. -/
def parseInt (s : List Char) : Option ℤ :=
  let core : List Char → Option ℤ := fun t =>
    let p := readDigits t
    if p.2.isEmpty ∧ ¬p.1.isEmpty then some (digitsVal p.1 : ℤ) else Option.none
  match s with
  | '+' :: t => core t
  | '-' :: t => (core t).map Neg.neg
  | t => core t

/-- Model of Python `int(v)` on a duck-typed value: `none` where the
Python call raises. -/
def pyInt : PyVal → Option ℤ
  | .none => Option.none
  | .num q => some (qtrunc q)
  | .bool b => some (if b then 1 else 0)
  | .str s => parseInt (pstrip s)

/-- Decimal digit characters of a natural number, with explicit fuel
(the fuel-exhausted branch is unreachable from `natDigits`). -/
def natDigitsF : ℕ → ℕ → List Char
  | 0, _ => []
  | fuel + 1, n =>
      if n < 10 then [Char.ofNat (n + 48)]
      else natDigitsF fuel (n / 10) ++ [Char.ofNat (n % 10 + 48)]

/-- Decimal digit characters of a natural number. -/
def natDigits (n : ℕ) : List Char := natDigitsF (n + 1) n

/-- Decimal representation of an integer (Python `str(i)`). -/
def intToStr (i : ℤ) : List Char :=
  if i < 0 then '-' :: natDigits i.natAbs else natDigits i.natAbs

/-- Python `str(v or "")` as used on text-ish fields: falsy values give
the empty string; a number gives its decimal representation (integer
case; the sources only feed integers through this path). -/
def pyStrOr : PyVal → List Char
  | .str s => s
  | .num q => if q = 0 then [] else intToStr (qtrunc q)
  | .bool b => if b then "True".toList else []
  | .none => []

/-- The fonts referenced by both renderers (`FONT_R`, `FONT_SB`,
`FONT_B`, `FONT_XB`). -/
inductive Font where
  | regular | semibold | bold | extrabold
deriving DecidableEq

/-- A text-measuring function standing for
`c.stringWidth(text, font, size)`, valued in integer width units.
Font sizes are passed through unevaluated. -/
abbrev Measure := Font → ℚ → List Char → ℤ

/-- One millimetre in layout units (hundredths of a millimetre). -/
def mmU : ℤ := 100

/-- A4 page width (210 mm), in layout units. -/
def PAGE_W : ℤ := 210 * mmU

/-- A4 page height (297 mm), in layout units. -/
def PAGE_H : ℤ := 297 * mmU

/-- The coarse drawing events the model records, each tagged with the
1-based physical page it is drawn on. -/
inductive Ev where
  | topBorder (page : ℕ)
  | footer (page : ℕ)
  | logo (page : ℕ)
  | logoPlaceholder (page : ℕ)
  | title (page : ℕ)
  | divider (page : ℕ)
  | addresses (page : ℕ)
  | preparedBy (page : ℕ)
  | pill (idx : ℕ) (page : ℕ)
  | tableHeader (page : ℕ)
  | tableRow (idx : ℕ) (page : ℕ)
  | totalBand (page : ℕ)
  | sectionHeader (idx : ℕ) (page : ℕ)
  | kvRow (idx : ℕ) (page : ℕ)
  | notesBox (page : ℕ)
  | notesPlaceholder (page : ℕ)
deriving DecidableEq

/-- The mutable render state: the vertical cursor `y`, the 1-based
physical page counter, and the event trace so far. -/
structure RS where
  y : ℤ
  page : ℕ
  evs : List Ev
deriving DecidableEq

/-- The `down(delta)` helper closure shared by both renderers. -/
def RS.down (st : RS) (d : ℤ) : RS := { st with y := st.y - d }

/-- Record a drawing event on the current page. -/
def RS.emit (st : RS) (e : Ev) : RS := { st with evs := st.evs ++ [e] }

/-- The zebra row index of a key/value-row event. -/
def kvIdx : Ev → Option ℕ
  | .kvRow i _ => some i
  | _ => Option.none

/-- The position of a section-header event. -/
def secIdx : Ev → Option ℕ
  | .sectionHeader i _ => some i
  | _ => Option.none

/-- Events belonging to the itemized-table section. -/
def isTableEv : Ev → Bool
  | .tableHeader _ | .tableRow _ _ | .totalBand _ => true
  | _ => false

/-- Table-header events. -/
def isHeaderEv : Ev → Bool
  | .tableHeader _ => true
  | _ => false

/-- Line-item row events. -/
def isRowEv : Ev → Bool
  | .tableRow _ _ => true
  | _ => false

/-- Events that are neither table, section-header nor key/value-row
events: page chrome and the standalone blocks. -/
def isNeutral : Ev → Bool
  | .tableHeader _ | .tableRow _ _ | .totalBand _ | .sectionHeader _ _
  | .kvRow _ _ => false
  | _ => true

/-- `f` only appends neutral events to the trace (and never removes
any). -/
def NeutralExt (f : RS → RS) : Prop :=
  ∀ st, ∃ tl, (f st).evs = st.evs ++ tl ∧ tl.all isNeutral = true

/-- Every line-item row in the trace lies on a page that carries a
table header. -/
def RowsCovered (evs : List Ev) : Prop :=
  ∀ i pg, Ev.tableRow i pg ∈ evs → Ev.tableHeader pg ∈ evs

/-- The shared body of the word-placement loop of `wrap_text`
(generate_quote.py lines 635-641) and `_wrap_text` (app.py lines
389-395).  The accumulator is the pair `(lines, line)`. -/
def wrapStep {α : Type} [LinearOrder α] (w : List Char → α) (maxW : α)
    (acc : List (List Char) × List Char) (piece : List Char) :
    List (List Char) × List Char :=
  let candidate := pstrip (acc.2 ++ ' ' :: piece)
  if w candidate ≤ maxW then (acc.1, candidate)
  else (if acc.2.isEmpty then acc.1 else acc.1 ++ [acc.2], piece)

/-- The shared epilogue `if line: lines.append(line)` / `return lines or
[""]` (generate_quote.py lines 642-644, app.py lines 396-398). -/
def wrapFinish (acc : List (List Char) × List Char) : List (List Char) :=
  let lines := if acc.2.isEmpty then acc.1 else acc.1 ++ [acc.2]
  if lines.isEmpty then [[]] else lines

/-- The invariant the wrapping loop maintains on `(lines, line)`:
every committed line fits or is a single character, and the current
line is empty, fits, or is a single character. -/
def WrapInv {α : Type} [LinearOrder α] (w : List Char → α) (maxW : α)
    (acc : List (List Char) × List Char) : Prop :=
  (∀ l ∈ acc.1, w l ≤ maxW ∨ l.length = 1) ∧
    (acc.2 = [] ∨ w acc.2 ≤ maxW ∨ acc.2.length = 1)

/-- A concrete character-count measure used to evaluate theorems at
concrete inputs: ten width units per character. -/
def wTen : List Char → ℤ := fun l => 10 * l.length

/-- Python substring containment, `needle in haystack`. -/
def isSubstring (needle : List Char) : List Char → Bool
  | [] => needle.isEmpty
  | c :: rest => needle.isPrefixOf (c :: rest) || isSubstring needle rest

/-- Python `" ".join(texts)`. -/
def joinSpace : List (List Char) → List Char
  | [] => []
  | t :: rest =>
      match rest with
      | [] => t
      | _ => t ++ ' ' :: joinSpace rest

/-- Round `n / d` (with `d > 0`) to the nearest integer, ties to even —
the rounding Python's fixed-point string formatting applies. -/
def roundHalfEvenDiv (n d : ℤ) : ℤ :=
  let f := n.ediv d
  let r2 := 2 * n.emod d
  if r2 < d then f else if d < r2 then f + 1 else if f % 2 = 0 then f else f + 1

/-- Group a reversed digit string in threes (helper for the `,` flag of
Python's format spec). -/
def groupRev : List Char → ℕ → List Char
  | [], _ => []
  | c :: rest, k =>
      if k = 2 then
        c :: (if rest.isEmpty then [] else ',' :: groupRev rest 0)
      else c :: groupRev rest (k + 1)

/-- Insert thousands separators into a digit string. -/
def groupDigits (ds : List Char) : List Char := (groupRev ds.reverse 0).reverse

/-- `money(val)` (generate_quote.py lines 608-612) and the identical
`_money(val)` closure (app.py lines 746-750):
`f"£{float(val):,.2f}"`, with the `"£0.00"` fallback when `float`
raises `TypeError` or `ValueError`.  The fixed-point formatting rounds
half to even and inserts thousands separators. -/
def money (v : PyVal) : List Char :=
  match pyFloat v with
  | Option.none => "£0.00".toList
  | some q =>
      let pence := roundHalfEvenDiv (100 * q.num) (q.den : ℤ)
      let ap := pence.natAbs
      let frac := if ap % 100 < 10 then '0' :: natDigits (ap % 100)
        else natDigits (ap % 100)
      '£' :: ((if pence < 0 then ['-'] else []) ++
        groupDigits (natDigits (ap / 100)) ++ '.' :: frac)

end PdfX

namespace PdfX.GQ

/-! Definitions translated from `src/generate_quote.py`. -/

open PdfX

/-- `MARGIN = 18 * mm` (generate_quote.py line 66). -/
def MARGIN : ℤ := 18 * mmU

/-- `CONTENT_W = PAGE_W - 2 * MARGIN` (generate_quote.py line 67). -/
def CONTENT_W : ℤ := PAGE_W - 2 * MARGIN

/-- The inner `while cut > 1 and c.stringWidth(remaining[:cut], font,
size) > max_width: cut -= 1` loop of `split_long_token`
(generate_quote.py lines 621-623), starting from a given `cut`. -/
def cutLoop {α : Type} [LinearOrder α] (w : List Char → α) (maxW : α)
    (tok : List Char) : ℕ → ℕ
  | 0 => 0
  | 1 => 1
  | (c+2) => if maxW < w (tok.take (c+2)) then cutLoop w maxW tok (c+1) else c + 2

/-- The outer `while remaining and c.stringWidth(remaining, font, size)
> max_width` loop of `split_long_token` (generate_quote.py lines
619-627), including the trailing `if remaining: chunks.append(remaining)`.
Written with an explicit fuel so that it is structurally recursive (and
hence evaluable by `decide`); the fuel-exhausted branch is unreachable
from `splitGo`, which supplies `remaining.length` as fuel, because each
pass removes at least one character. -/
def splitGoFuel {α : Type} [LinearOrder α] (w : List Char → α) (maxW : α) :
    ℕ → List Char → List (List Char)
  | fuel, remaining =>
    if remaining ≠ [] ∧ maxW < w remaining then
      match fuel with
      | 0 => [remaining]
      | (fuel + 1) =>
          remaining.take (cutLoop w maxW remaining remaining.length) ::
            splitGoFuel w maxW fuel
              (remaining.drop (cutLoop w maxW remaining remaining.length))
    else if remaining = [] then [] else [remaining]

/-- The `split_long_token` chunking loop at its real fuel. -/
def splitGo {α : Type} [LinearOrder α] (w : List Char → α) (maxW : α)
    (remaining : List Char) : List (List Char) :=
  splitGoFuel w maxW remaining.length remaining

/-- `split_long_token` (generate_quote.py lines 617-628):
`return chunks or [""]`. -/
def splitLongToken {α : Type} [LinearOrder α] (w : List Char → α) (maxW : α)
    (tok : List Char) : List (List Char) :=
  if (splitGo w maxW tok).isEmpty then [[]] else splitGo w maxW tok

/-- `wrap_text(c, text, font, size, max_width)` (generate_quote.py
lines 615-644).  The `(text or "")` guard is modelled by an optional
argument. -/
def wrapText {α : Type} [LinearOrder α] (w : List Char → α) (maxW : α)
    (text : Option (List Char)) : List (List Char) :=
  let ws := pwords (text.getD [])
  wrapFinish (ws.foldl
    (fun acc word => (splitLongToken w maxW word).foldl (wrapStep w maxW) acc)
    ([], []))

/-- `ensure_space(required_height, redraw=None)` (generate_quote.py
lines 682-695): if at least `required_height` is available above the
bottom margin, do nothing; otherwise draw the footer, start a new page,
reset the cursor to the top margin, redraw the top border, and invoke
the redraw callback if one was supplied. -/
def ensureSpace (required : ℤ) (redraw : Option (RS → RS)) (st : RS) : RS :=
  if required ≤ st.y - MARGIN then st
  else
    let st1 := st.emit (.footer st.page)
    let st2 : RS := { y := PAGE_H - MARGIN, page := st1.page + 1, evs := st1.evs }
    let st3 := st2.emit (.topBorder st2.page)
    match redraw with
    | some f => f st3
    | Option.none => st3

/-- One extracted line item as consumed by generate_quote.py (the keys
its renderer and injection logic read). -/
structure GQItem where
  description : PyVal
  quantity : PyVal
  unit_price : PyVal
  line_total : PyVal
deriving DecidableEq

/-- The extracted-data dict fields consulted by generate_quote.py's
hazard check, note injection and renderer.  The `_note_type` key is
`noteType`. -/
structure GQData where
  supplier_name : PyVal
  supplier_address : PyVal
  supplier_email : PyVal
  reference_number : PyVal
  quote_expiry_date : PyVal
  line_items : List GQItem
  notes : PyVal
  note_already_included : PyVal
  ewc_code : PyVal
  waste_type : PyVal
  job_name : PyVal
  noteType : Option (List Char)
deriving DecidableEq

/-- `HAZARDOUS_KEYWORDS` (generate_quote.py lines 454-461). -/
def HAZARDOUS_KEYWORDS : List (List Char) :=
  ["mercury", "fluorescent", "crt", "cathode ray", "asbestos", "clinical",
   "hazardous", "oil", "solvent", "pcb", "cyanide", "acid", "alkali",
   "paint", "varnish", "adhesive", "resin", "infectious", "cytotoxic",
   "pharmaceutical", "amalgam", "lead", "cadmium", "arsenic", "chromium",
   "photochemical", "developer", "fixer", "toner", "ink", "vape",
   "e-cigarette", "lithium", "nicad", "nickel cadmium", "battery",
   "ionisation", "smoke detector"].map String.toList

/-- `is_hazardous(data)` (generate_quote.py lines 464-484). -/
def is_hazardous (d : GQData) : Bool :=
  let ewc := pstrip (pyStrOr d.ewc_code)
  if ewc.getLast? = some '*' then true
  else
    let texts := [pyStrOr d.waste_type, pyStrOr d.job_name] ++
      d.line_items.map (fun i => pyStrOr i.description)
    let combined := plower (joinSpace texts)
    HAZARDOUS_KEYWORDS.any (fun kw => isSubstring kw combined)

/-- The statutory charge row appended by `inject_note_charge`
(generate_quote.py line 513). -/
def noteCharge (label : List Char) : GQItem :=
  { description := .str label, quantity := .num 1, unit_price := .num 40,
    line_total := .num 40 }

/-- The duplicate-note test of `inject_note_charge` (generate_quote.py
lines 505-509). -/
def hasNoteItem (i : GQItem) : Bool :=
  isSubstring "consignment".toList (plower (pyStrOr i.description)) ||
    isSubstring "transfer note".toList (plower (pyStrOr i.description))

/-- `inject_note_charge(data)` (generate_quote.py lines 487-516). -/
def inject_note_charge (d : GQData) : GQData :=
  if d.note_already_included.truthy then d
  else
    let noteLabel := if is_hazardous d then "Consignment Note".toList
      else "Waste Transfer Note".toList
    if ¬(d.line_items.filter hasNoteItem).isEmpty then d
    else { d with line_items := d.line_items ++ [noteCharge noteLabel],
                  noteType := some noteLabel }

/-- The inner `while note_idx < len(note_lines) and note_y >=
box_bottom` drawing loop of the notes block (generate_quote.py lines
1001-1004), returning the advanced `note_idx`; written with explicit
fuel (`drawNotes` supplies `L`, which suffices because `note_idx`
strictly increases towards `L`). -/
def drawNotesF (L : ℕ) (bb : ℤ) : ℕ → ℤ → ℕ → ℕ
  | 0, _, idx => idx
  | fuel + 1, ny, idx =>
      if idx < L ∧ bb ≤ ny then
        drawNotesF L bb fuel (ny - 45 * mmU / 10) (idx + 1)
      else idx

/-- The notes-drawing loop at its real fuel. -/
def drawNotes (L : ℕ) (bb ny : ℤ) (idx : ℕ) : ℕ := drawNotesF L bb L ny idx

/-- The `while True` notes/caveats continuation loop (generate_quote.py
lines 982-1009), with explicit fuel (`notesLoop` supplies `L + 1`,
which suffices because every pass that recurses advances `note_idx` by
at least one line).  Returns the number of loop iterations together
with the final render state.  `L` is the number of wrapped note lines. -/
def notesLoopF (L : ℕ) : ℕ → RS → ℕ → ℕ × RS
  | 0, st, _ => (0, st)
  | fuel + 1, st, idx =>
      let st1 := ensureSpace (22 * mmU) Option.none st
      let commH := max (22 * mmU) (min (st1.y - MARGIN - 5 * mmU) (45 * mmU))
      if L = 0 then
        (1, ((st1.emit (.notesBox st1.page)).emit (.notesPlaceholder st1.page)).down commH)
      else
        let idx2 := drawNotes L (st1.y - commH + 4 * mmU) (st1.y - 11 * mmU) idx
        let st2 := (st1.emit (.notesBox st1.page)).down commH
        if L ≤ idx2 then (1, st2)
        else
          let r := notesLoopF L fuel (st2.down (6 * mmU)) idx2
          (r.1 + 1, r.2)

/-- The notes loop started at line index 0, at its real fuel. -/
def notesLoop (L : ℕ) (st : RS) : ℕ × RS := notesLoopF L (L + 1) st 0

/-- The minimum number of wrapped lines one pass of the notes loop
draws while lines remain: the box is always at least 22 mm tall, so the
line slots 11 mm and 15.5 mm below the box top both lie above the box
bottom (4 mm above the box's lower edge). -/
def linesPerBox : ℕ := 2

/-- `hdr_h = 9 * mm` (generate_quote.py line 871). -/
def hdr_h : ℤ := 9 * mmU

/-- `row_h = 8 * mm` (generate_quote.py line 872). -/
def row_h : ℤ := 8 * mmU

/-- Top chrome: accent bar, centred logo or its "LOGO" text
placeholder, title, green divider (generate_quote.py lines 750-779).
The title font-size shrink loop only affects drawing and is not
modelled. -/
def headerBlock (logoOk : Bool) (st : RS) : RS :=
  let st := st.emit (.topBorder st.page)
  let st := if logoOk then st.emit (.logo st.page) else st.emit (.logoPlaceholder st.page)
  let st := st.down (16 * mmU + 8 * mmU)
  let st := (st.emit (.title st.page)).down (6 * mmU)
  ((st.emit (.divider st.page)).down (7 * mmU))

/-- The two-column Bill To / From block (generate_quote.py lines
781-828): the left column descends 4.5 mm for the label, 5 mm for the
supplier name, 4.5 mm per kept address line (at most six) and 4.5 mm
for the optional e-mail; the right column descends for the fixed
three-line `WE_ADDRESS`; the cursor resumes at the lower column minus
6 mm. -/
def addressBlock (d : GQData) (st : RS) : RS :=
  let st := st.emit (.addresses st.page)
  let addrLines := (((psplitNl (pyStrOr d.supplier_address)).map pstrip).filter
    (fun l => ¬l.isEmpty)).take 6
  let bottomLeft := st.y - 45 * mmU / 10 - 5 * mmU -
    (addrLines.length : ℤ) * (45 * mmU / 10) -
    (if d.supplier_email.truthy then 45 * mmU / 10 else 0)
  let bottomRight := st.y - 45 * mmU / 10 - 5 * mmU - 3 * (45 * mmU / 10)
  { st with y := min bottomLeft bottomRight - 6 * mmU }

/-- The prepared-by band (generate_quote.py lines 830-846). -/
def prepBlock (st : RS) : RS :=
  let st := ensureSpace (17 * mmU + 6 * mmU) Option.none st
  ((st.emit (.preparedBy st.page)).down (17 * mmU + 6 * mmU))

/-- The reference and expiry pills (generate_quote.py lines 848-866). -/
def pillsBlock (st : RS) : RS :=
  let st := ensureSpace (13 * mmU + 8 * mmU) Option.none st
  (((st.emit (.pill 0 st.page)).emit (.pill 1 st.page)).down (13 * mmU + 8 * mmU))

/-- `draw_table_header()` (generate_quote.py lines 874-886). -/
def drawTableHeader (st : RS) : RS :=
  (st.emit (.tableHeader st.page)).down hdr_h

/-- The line-item row loop (generate_quote.py lines 891-946): every row
is 8 mm tall and `ensure_space` carries `draw_table_header` as its
redraw callback; the numeric coercions only feed the running total
(`grandTotal`), which never affects layout. -/
def rowsGo : List GQItem → ℕ → RS → RS
  | [], _, st => st
  | _ :: rest, idx, st =>
      let st := ensureSpace row_h (some drawTableHeader) st
      let st := (st.emit (.tableRow idx st.page)).down row_h
      rowsGo rest (idx + 1) st

/-- The itemized table: unconditional header via `ensure_space` + draw,
the row loop, and the trailing 6 mm gap (generate_quote.py lines
888-948). -/
def tableBlock (items : List GQItem) (st : RS) : RS :=
  let st := ensureSpace hdr_h Option.none st
  let st := drawTableHeader st
  ((rowsGo items 0 st).down (6 * mmU))

/-- Per-row charge (generate_quote.py lines 898-914):
`float(quantity)` with fallback 1.0, `float(unit_price or 0)` with
fallback 0.0, `float(line_total or qty*unit)` with fallback
`qty*unit`. -/
def rowTotal (it : GQItem) : ℚ :=
  let qty := (pyFloat it.quantity).getD 1
  let unit := (pyFloat (pyOr it.unit_price (.num 0))).getD 0
  (pyFloat (pyOr it.line_total (.num (qty * unit)))).getD (qty * unit)

/-- The accumulated `grand_total` (generate_quote.py lines 892-914). -/
def grandTotal (items : List GQItem) : ℚ := (items.map rowTotal).sum

/-- The subtotal and total band (generate_quote.py lines 950-975):
guarded as one unit, then two cursor advances. -/
def totalBlock (st : RS) : RS :=
  let st := ensureSpace (10 * mmU + 2 * mmU + 14 * mmU + 10 * mmU) Option.none st
  let st := (st.emit (.totalBand st.page)).down (10 * mmU + 2 * mmU)
  st.down (14 * mmU + 10 * mmU)

/-- The notes block: wrap the stripped notes once, then run the
continuation loop (generate_quote.py lines 977-1009). -/
def notesBlock (M : Measure) (d : GQData) (st : RS) : RS :=
  let notes := pstrip (pyStrOr d.notes)
  let noteLines := if ¬notes.isEmpty then
      wrapText (M .regular 9) (CONTENT_W - 8 * mmU) (some notes)
    else []
  (notesLoop noteLines.length st).2

/-- `generate_pdf(data, logo_path, out_path)` (generate_quote.py lines
656-1015) as a state function: `logoOk` abstracts a logo reader (local
file or remote fetch) being available; the title text mirrors the
output file name and only affects drawing; serialization is not
modelled. -/
def generatePdf (M : Measure) (logoOk : Bool) (d : GQData) : RS :=
  let st : RS := ⟨PAGE_H - MARGIN, 1, []⟩
  let st := headerBlock logoOk st
  let st := addressBlock d st
  let st := prepBlock st
  let st := pillsBlock st
  let st := tableBlock d.line_items st
  let st := totalBlock st
  let st := notesBlock M d st
  st.emit (.footer st.page)

end PdfX.GQ

namespace PdfX.App

/-! Definitions translated from `src/app.py`. -/

open PdfX

/-- `MARGIN = 14 * mm` (app.py line 284). -/
def MARGIN : ℤ := 14 * mmU

/-- `CONTENT_W = PAGE_W - 2 * MARGIN` (app.py line 285). -/
def CONTENT_W : ℤ := PAGE_W - 2 * MARGIN

/-- `_wrap_text(c, text, font, size, max_width)` (app.py lines
384-398): the same greedy loop but with no long-word splitting. -/
def wrapText {α : Type} [LinearOrder α] (w : List Char → α) (maxW : α)
    (text : Option (List Char)) : List (List Char) :=
  let ws := pwords (text.getD [])
  wrapFinish (ws.foldl (wrapStep w maxW) ([], []))

/-- `ensure_space(needed)` (app.py lines 568-575): note the extra
5 mm buffer in the sufficiency test, and the absence of any redraw
callback. -/
def ensureSpace (needed : ℤ) (st : RS) : RS :=
  if needed ≤ st.y - MARGIN - 5 * mmU then st
  else
    let st1 := st.emit (.footer st.page)
    let st2 : RS := { y := PAGE_H - MARGIN, page := st1.page + 1, evs := st1.evs }
    st2.emit (.topBorder st2.page)

/-- One line item as consumed by app.py's review renderer (all keys it
reads; the `_is_doc_type_line` marker is `is_doc_type_line`). -/
structure AppItem where
  container : PyVal
  quantity : PyVal
  weee_number : PyVal
  weee_category : PyVal
  waste_stream : PyVal
  description : PyVal
  movement_type : PyVal
  price : PyVal
  line_total : PyVal
  unit_price : PyVal
  is_doc_type_line : Bool
deriving DecidableEq

/-- The £40 document-type row appended by `_inject_doc_type_line`
(app.py lines 525-529); keys the dict does not set are `None`. -/
def docTypeLine (docType : List Char) : AppItem :=
  { description := .str docType, container := .str [], waste_stream := .str [],
    movement_type := .str [], price := .num 40,
    quantity := .none, weee_number := .none, weee_category := .none,
    line_total := .none, unit_price := .none, is_doc_type_line := true }

/-- The `note_names` set of `_inject_doc_type_line` (app.py line 519). -/
def NOTE_NAMES : List (List Char) :=
  ["consignment note", "waste transfer note"].map String.toList

/-- `_inject_doc_type_line(line_items, document_type)` (app.py lines
512-530), in functional form: returns the (possibly extended) list. -/
def injectDocTypeLine (line_items : List AppItem) (document_type : PyVal) :
    List AppItem :=
  if pstrip (pyStrOr document_type) ≠ "Consignment Note".toList ∧
      pstrip (pyStrOr document_type) ≠ "Waste Transfer Note".toList
  then line_items
  else if ¬(line_items.any (fun it =>
      NOTE_NAMES.contains (plower (pstrip (pyStrOr it.description))))) = true
  then line_items ++ [docTypeLine (pstrip (pyStrOr document_type))]
  else line_items

/-- The price coercion chain of app.py line 763:
`float(item.get("price") or item.get("line_total") or
item.get("unit_price") or 0)`, before the `except` fallback. -/
def priceSrc (it : AppItem) : Option ℚ :=
  pyFloat (pyOr it.price (pyOr it.line_total (pyOr it.unit_price (.num 0))))

/-- The coerced price of a row (app.py lines 762-765): the chain above
with the 0.0 fallback on any `TypeError` / `ValueError`. -/
def priceOf (it : AppItem) : ℚ := (priceSrc it).getD 0

/-- The running total of the itemized table (app.py lines 752-767). -/
def grandTotal (items : List AppItem) : ℚ := (items.map priceOf).sum

/-- `WEEE_CATEGORIES` (app.py lines 408-424). -/
def WEEE_CATEGORIES : List (ℕ × List Char) :=
  [(1, "Large Household Appliances"),
   (2, "Small Household Appliances"),
   (3, "IT and Telecommunications Equipment"),
   (4, "Consumer Equipment"),
   (5, "Lighting Equipment"),
   (6, "Electrical and Electronic Tools"),
   (7, "Toys, Leisure and Sports Equipment"),
   (8, "Medical Devices"),
   (9, "Monitoring and Control Equipment"),
   (10, "Automatic Dispensers"),
   (11, "Display Equipment"),
   (12, "Appliances Containing Refrigerants"),
   (13, "Gas Discharge Lamps and LED Light Sources"),
   (14, "PV Panels (Solar Panels)"),
   (15, "Vapes and Electronic Cigarettes")].map (fun p => (p.1, String.toList p.2))

/-- Model of `re.match(r"^(\d{1,2})\.\s+(.+)", ws)` (app.py line 488):
one or two leading digits (two preferred), a dot, at least one
whitespace character, then a nonempty remainder whose first line is
group 2 (`.` does not match newlines).  The all-whitespace-remainder
corner case, where the regex can match with a group 2 that strips to
the empty string, is folded into the no-match answer: both leave an
empty category downstream. -/
def wsPattern (s : List Char) : Option (List Char × List Char) :=
  let tryAt : ℕ → Option (List Char × List Char) := fun n =>
    let ds := s.take n
    if ds.length = n ∧ ds.all Char.isDigit ∧ (s.drop n).head? = some '.' then
      let after := s.drop (n + 1)
      let rest := after.dropWhile Char.isWhitespace
      if 1 ≤ (after.takeWhile Char.isWhitespace).length ∧ ¬rest.isEmpty then
        some (ds, rest.takeWhile (fun c => c ≠ '\n'))
      else Option.none
    else Option.none
  (tryAt 2).orElse (fun _ => tryAt 1)

/-- `_waste_stream_parts(item)` (app.py lines 461-507): the
`(weee_line, desc_line)` pair driving the two-line row layout. -/
def wasteStreamParts (it : AppItem) : List Char × List Char :=
  let weeeNum0 : PyVal := pyOr it.weee_number (.str [])
  let weeeCat0 : List Char := pyStrOr it.weee_category
  let desc := pstrip (pyStrOr it.description)
  let weeeCat1 := if weeeNum0.truthy ∧ weeeCat0.isEmpty then
      match pyInt weeeNum0 with
      | some n => ((WEEE_CATEGORIES.find? (fun q => (q.1 : ℤ) = n)).map Prod.snd).getD []
      | Option.none => weeeCat0
    else weeeCat0
  let weeeNum1 : PyVal := if ¬weeeCat1.isEmpty ∧ ¬weeeNum0.truthy then
      match WEEE_CATEGORIES.find? (fun q => q.2 = weeeCat1) with
      | some q => .str (intToStr q.1)
      | Option.none => weeeNum0
    else weeeNum0
  let step3 : PyVal × List Char :=
    if weeeCat1.isEmpty then
      if ¬(pstrip (pyStrOr it.waste_stream)).isEmpty then
        match wsPattern (pstrip (pyStrOr it.waste_stream)) with
        | some g => (PyVal.str g.1, pstrip g.2)
        | Option.none =>
            match WEEE_CATEGORIES.find? (fun q => q.2 = pstrip (pyStrOr it.waste_stream)) with
            | some q => (PyVal.str (intToStr q.1), pstrip (pyStrOr it.waste_stream))
            | Option.none => (weeeNum1, weeeCat1)
      else (weeeNum1, weeeCat1)
    else (weeeNum1, weeeCat1)
  let weeeLine := if ¬step3.2.isEmpty ∧ step3.1.truthy then
      pyStrOr step3.1 ++ '.' :: ' ' :: step3.2
    else if ¬step3.2.isEmpty then step3.2
    else []
  (weeeLine, desc)

/-- Top chrome of the review PDF: accent bar and logo (app.py lines
582-602); the cursor drops by the logo height plus 6 mm whether or not
a logo was drawn. -/
def headerBlock (logoOk : Bool) (st : RS) : RS :=
  let st := st.emit (.topBorder st.page)
  let st := if logoOk then st.emit (.logo st.page) else st
  st.down (16 * mmU + 6 * mmU)

/-- Title and green rule (app.py lines 604-620): the title is drawn
only when `service_description` is nonempty; its font-size shrink loop
only affects drawing and is not modelled. -/
def titleBlock (p_service_description : PyVal) (st : RS) : RS :=
  let st := if ¬(pstrip (pyStrOr p_service_description)).isEmpty then
      (st.emit (.title st.page)).down (6 * mmU)
    else st
  (st.emit (.divider st.page)).down (7 * mmU)

/-- The two-column Bill To / From block (app.py lines 622-661): the
left column descends 4.5 mm for the label, 5 mm for the account name
and 4.5 mm per address line (at most six, only when the address is
nonempty); the right column descends for the fixed three-line
`WE_ADDRESS`; the cursor resumes at the lower of the two columns minus
6 mm. -/
def addressBlock (supplier_address : PyVal) (st : RS) : RS :=
  let st := st.emit (.addresses st.page)
  let addrLines := if ¬(pstrip (pyStrOr supplier_address)).isEmpty then
      (((psplitNl (pstrip (pyStrOr supplier_address))).map pstrip).filter
        (fun l => ¬l.isEmpty)).take 6
    else []
  let bottomLeft := st.y - 45 * mmU / 10 - 5 * mmU -
    (addrLines.length : ℤ) * (45 * mmU / 10)
  let bottomRight := st.y - 45 * mmU / 10 - 5 * mmU - 3 * (45 * mmU / 10)
  { st with y := min bottomLeft bottomRight - 6 * mmU }

/-- The prepared-by band (app.py lines 663-686): 17 mm box plus 6 mm
gap, guarded by `ensure_space`. -/
def prepBlock (st : RS) : RS :=
  let st := ensureSpace (17 * mmU + 6 * mmU) st
  ((st.emit (.preparedBy st.page)).down (17 * mmU + 6 * mmU))

/-- The reference / document-type / valid-until pills (app.py lines
688-714): 13 mm boxes plus 8 mm gap, guarded by `ensure_space`. -/
def pillsBlock (st : RS) : RS :=
  let st := ensureSpace (13 * mmU + 8 * mmU) st
  ((((st.emit (.pill 0 st.page)).emit (.pill 1 st.page)).emit
    (.pill 2 st.page)).down (13 * mmU + 8 * mmU))

/-- The row-height selection (app.py lines 769-771): 14 mm when both a
WEEE line and a description are present, else 8 mm. -/
def rowHeightOf (it : AppItem) : ℤ :=
  if ¬(wasteStreamParts it).1.isEmpty ∧ ¬(wasteStreamParts it).2.isEmpty then
    14 * mmU
  else 8 * mmU

/-- The item-row loop (app.py lines 753-840): `ensure_space` is called
with no redraw callback before each row. -/
def rowsGo : List AppItem → ℕ → RS → RS
  | [], _, st => st
  | it :: rest, idx, st =>
      let st := ensureSpace (rowHeightOf it) st
      let st := (st.emit (.tableRow idx st.page)).down (rowHeightOf it)
      rowsGo rest (idx + 1) st

/-- The itemized table (app.py lines 716-853): document-type injection,
then — only if any line items remain — header, rows and total band. -/
def tableBlock (line_items : List AppItem) (document_type : PyVal) (st : RS) : RS :=
  let items := injectDocTypeLine line_items document_type
  if ¬items.isEmpty then
    let st := ensureSpace (9 * mmU) st
    let st := (st.emit (.tableHeader st.page)).down (9 * mmU)
    let st := rowsGo items 0 st
    let st := ensureSpace (10 * mmU) st
    ((st.emit (.totalBand st.page)).down (10 * mmU + 8 * mmU))
  else st

/-- The value cell of a key/value row (app.py lines 902-912):
`str(value or "").strip()` with the em-dash placeholder, split on
newlines, each line stripped and re-wrapped to the 62 % value column
less padding. -/
def kvValueLines (M : Measure) (v : PyVal) : List (List Char) :=
  let valueStr := pstrip (pyStrOr v)
  (psplitNl (if valueStr.isEmpty then ['—'] else valueStr)).foldr
    (fun raw acc =>
      wrapText (M .regular 9) (CONTENT_W * 62 / 100 - 8 * mmU) (some (pstrip raw)) ++ acc)
    []

/-- A key/value row's height (app.py line 914):
`max(row_h, len(value_lines) * 4 * mm + 4 * mm)`. -/
def kvRowHeight (M : Measure) (v : PyVal) : ℤ :=
  max (8 * mmU) (((kvValueLines M v).length : ℤ) * (4 * mmU) + 4 * mmU)

/-- One key/value row (app.py lines 902-945): dynamic height,
`ensure_space`, draw with the zebra counter, advance, increment the
counter. -/
def kvRowStep (M : Measure) (v : PyVal) (acc : RS × ℕ) : RS × ℕ :=
  let st := ensureSpace (kvRowHeight M v) acc.1
  ((st.emit (.kvRow acc.2 st.page)).down (kvRowHeight M v), acc.2 + 1)

/-- One titled section (app.py lines 889-945): `ensure_space` for the
header band plus one row, the header band, then the field rows. -/
def sectionStep (M : Measure) (secI : ℕ) (fields : List PyVal) (acc : RS × ℕ) :
    RS × ℕ :=
  let st := ensureSpace (7 * mmU + 8 * mmU) acc.1
  let st := (st.emit (.sectionHeader secI st.page)).down (7 * mmU)
  fields.foldl (fun a v => kvRowStep M v a) (st, acc.2)

/-- The payload fields app.py's review renderer reads. -/
structure Payload where
  service_description : PyVal
  account_name : PyVal
  supplier_address : PyVal
  person_name : PyVal
  person_title : PyVal
  person_email : PyVal
  person_phone : PyVal
  purchase_order_number : PyVal
  document_type : PyVal
  line_items : List AppItem
  site_contact : PyVal
  site_contact_number : PyVal
  site_contact_email : PyVal
  secondary_site_contact : PyVal
  secondary_site_contact_number : PyVal
  secondary_site_contact_email : PyVal
  site_name : PyVal
  site_address : PyVal
  site_postcode : PyVal
  opening_times : PyVal
  access : PyVal
  site_restrictions : PyVal
  special_instructions : PyVal
deriving DecidableEq

/-- The four fixed sections' value fields (app.py lines 861-886); only
values influence layout. -/
def sectionsOf (p : Payload) : List (List PyVal) :=
  [[p.account_name, .str "Waste Experts".toList, p.purchase_order_number],
   [p.site_contact, p.site_contact_number, p.site_contact_email,
    p.secondary_site_contact, p.secondary_site_contact_number,
    p.secondary_site_contact_email],
   [p.site_name, p.site_address, p.site_postcode],
   [p.opening_times, p.access, p.site_restrictions, p.special_instructions]]

/-- The section loop (app.py lines 888-945), tagging each section with
its position for the trace. -/
def sectionsGo (M : Measure) : List (List PyVal) → ℕ → RS × ℕ → RS × ℕ
  | [], _, a => a
  | fs :: rest, i, a => sectionsGo M rest (i + 1) (sectionStep M i fs a)

/-- All four sections in order with the zebra `row_index` threaded —
never reset between sections — then the bottom border and the 8 mm gap
(app.py lines 888-952). -/
def sectionsBlock (M : Measure) (p : Payload) (st : RS) : RS :=
  (sectionsGo M (sectionsOf p) 0 (st, 0)).1.down (8 * mmU)

/-- The wrapped caveats lines (app.py lines 955-956): the stripped
special instructions wrapped once, or nothing when empty. -/
def caveatsLines (M : Measure) (special_instructions : PyVal) : List (List Char) :=
  if ¬(pstrip (pyStrOr special_instructions)).isEmpty then
    wrapText (M .regular 9) (CONTENT_W - 8 * mmU)
      (some (pstrip (pyStrOr special_instructions)))
  else []

/-- `comm_content_h = max(18 * mm, len(note_lines) * 4.5 * mm + 14 * mm)`
(app.py line 958). -/
def caveatsHeight (M : Measure) (v : PyVal) : ℤ :=
  max (18 * mmU) (((caveatsLines M v).length : ℤ) * (45 * mmU / 10) + 14 * mmU)

/-- The caveats/comments box (app.py lines 954-979): size the box to
fit every wrapped line (no continuation loop), `ensure_space`, draw box
and lines or the placeholder, advance. -/
def caveatsBlock (M : Measure) (v : PyVal) (st : RS) : RS :=
  let st := ensureSpace (caveatsHeight M v) st
  let st := st.emit (.notesBox st.page)
  let st := if (caveatsLines M v).isEmpty then st.emit (.notesPlaceholder st.page)
    else st
  st.down (caveatsHeight M v)

/-- `_build_review_pdf(payload)` (app.py lines 535-985) as a state
function: `logoOk` abstracts `_get_logo_reader()` succeeding; the
serialization of the canvas to bytes is not modelled. -/
def buildReviewPdf (M : Measure) (logoOk : Bool) (p : Payload) : RS :=
  let st : RS := ⟨PAGE_H - MARGIN, 1, []⟩
  let st := headerBlock logoOk st
  let st := titleBlock p.service_description st
  let st := addressBlock p.supplier_address st
  let st := prepBlock st
  let st := pillsBlock st
  let st := tableBlock p.line_items p.document_type st
  let st := sectionsBlock M p st
  let st := caveatsBlock M p.special_instructions st
  st.emit (.footer st.page)

end PdfX.App

namespace PdfX

/-! Concrete instances used to evaluate the model on closed inputs. -/

/-- A concrete measure: every character is 10 layout units (1 mm) wide
at any font and size. -/
def M0 : Measure := fun _ _ l => 10 * l.length

/-- A one-character single-line line item for app.py's renderer. -/
def simpleItem : App.AppItem :=
  { description := .str ['x'], container := .none, waste_stream := .none,
    movement_type := .none, price := .num 10, quantity := .none,
    weee_number := .none, weee_category := .none, line_total := .none,
    unit_price := .none, is_doc_type_line := false }

/-- A review payload with 25 identical single-line items and every
other field null. -/
def cPayload : App.Payload :=
  { service_description := .none, account_name := .none, supplier_address := .none,
    person_name := .none, person_title := .none, person_email := .none,
    person_phone := .none, purchase_order_number := .none, document_type := .none,
    line_items := List.replicate 25 simpleItem,
    site_contact := .none, site_contact_number := .none, site_contact_email := .none,
    secondary_site_contact := .none, secondary_site_contact_number := .none,
    secondary_site_contact_email := .none, site_name := .none, site_address := .none,
    site_postcode := .none, opening_times := .none, access := .none,
    site_restrictions := .none, special_instructions := .none }

/-- An empty review payload: no line items and every field null. -/
def pay0 : App.Payload :=
  { service_description := .none, account_name := .none, supplier_address := .none,
    person_name := .none, person_title := .none, person_email := .none,
    person_phone := .none, purchase_order_number := .none, document_type := .none,
    line_items := [],
    site_contact := .none, site_contact_number := .none, site_contact_email := .none,
    secondary_site_contact := .none, secondary_site_contact_number := .none,
    secondary_site_contact_email := .none, site_name := .none, site_address := .none,
    site_postcode := .none, opening_times := .none, access := .none,
    site_restrictions := .none, special_instructions := .none }

/-- Quote data with zero line items and every field null. -/
def gqData0 : GQ.GQData :=
  { supplier_name := .none, supplier_address := .none, supplier_email := .none,
    reference_number := .none, quote_expiry_date := .none, line_items := [],
    notes := .none, note_already_included := .none, ewc_code := .none,
    waste_type := .none, job_name := .none, noteType := Option.none }

/-- A line item whose price field is the unparsable string "abc" and
whose other price sources are missing. -/
def badPriceItem : App.AppItem :=
  { description := .str [], container := .str [], waste_stream := .none,
    movement_type := .none, price := .str ['a', 'b', 'c'],
    quantity := .none, weee_number := .none, weee_category := .none,
    line_total := .none, unit_price := .none, is_doc_type_line := false }

/-! Theorems. -/

/-- Words produced by Python `str.split()` are never empty. -/
theorem pwordsAux_ne_nil : ∀ (s acc : List Char), ∀ wd ∈ pwordsAux acc s, wd ≠ []
  | [], acc => by
      intro wd h
      unfold pwordsAux at h
      split at h
      · simp at h
      · rcases List.mem_singleton.mp h with rfl
        rename_i hne
        simpa [List.isEmpty_iff] using hne
  | c :: rest, acc => by
      intro wd h
      unfold pwordsAux at h
      split at h
      · split at h
        · exact pwordsAux_ne_nil rest [] wd h
        · rcases List.mem_cons.mp h with rfl | h'
          · simp_all [List.isEmpty_iff]
          · exact pwordsAux_ne_nil rest [] wd h'
      · exact pwordsAux_ne_nil rest (c :: acc) wd h

theorem pwords_ne_nil (s : List Char) : ∀ wd ∈ pwords s, wd ≠ [] :=
  pwordsAux_ne_nil s []

end PdfX

namespace PdfX.GQ

theorem cutLoop_pos {α : Type} [LinearOrder α] (w : List Char → α) (maxW : α)
    (tok : List Char) :
    ∀ n : ℕ, 1 ≤ n → 1 ≤ cutLoop w maxW tok n
  | 1, _ => by simp [cutLoop]
  | (c+2), _ => by
      rw [cutLoop]
      split
      · exact cutLoop_pos w maxW tok (c+1) (by omega)
      · omega

theorem cutLoop_le {α : Type} [LinearOrder α] (w : List Char → α) (maxW : α)
    (tok : List Char) :
    ∀ n : ℕ, cutLoop w maxW tok n ≤ n
  | 0 => by simp [cutLoop]
  | 1 => by simp [cutLoop]
  | (c+2) => by
      rw [cutLoop]
      split
      · exact (cutLoop_le w maxW tok (c+1)).trans (by omega)
      · omega

theorem cutLoop_spec {α : Type} [LinearOrder α] (w : List Char → α) (maxW : α)
    (tok : List Char) :
    ∀ n : ℕ, 1 ≤ n →
      cutLoop w maxW tok n = 1 ∨ w (tok.take (cutLoop w maxW tok n)) ≤ maxW
  | 1, _ => by simp [cutLoop]
  | (c+2), _ => by
      rw [cutLoop]
      split
      · exact cutLoop_spec w maxW tok (c+1) (by omega)
      · right
        simpa using le_of_not_lt (by assumption)

theorem splitGoFuel_spec {α : Type} [LinearOrder α] (w : List Char → α) (maxW : α) :
    ∀ (fuel : ℕ) (x : List Char), x.length ≤ fuel →
      ∀ p ∈ splitGoFuel w maxW fuel x, (w p ≤ maxW ∨ p.length = 1) ∧ p ≠ []
  | 0, x => by
      intro hlen p hp
      have hx : x = [] := List.eq_nil_of_length_eq_zero (by omega)
      subst hx
      rw [splitGoFuel] at hp
      simp at hp
  | (fuel + 1), x => by
      intro hlen p hp
      rw [splitGoFuel] at hp
      split at hp
      · rename_i hx
        rcases List.mem_cons.mp hp with rfl | hp'
        · have hl1 : 1 ≤ x.length := List.length_pos.mpr hx.1
          have hc1 := cutLoop_pos w maxW x x.length hl1
          have hc2 := cutLoop_le w maxW x x.length
          constructor
          · rcases cutLoop_spec w maxW x x.length hl1 with h1 | h1
            · right
              rw [h1]
              simp only [List.length_take]
              omega
            · left
              exact h1
          · intro hnil
            have hzero : (x.take (cutLoop w maxW x x.length)).length = 0 := by
              rw [hnil]; rfl
            rw [List.length_take] at hzero
            omega
        · have hl1 : 1 ≤ x.length := List.length_pos.mpr hx.1
          have hc1 := cutLoop_pos w maxW x x.length hl1
          refine splitGoFuel_spec w maxW fuel _ ?_ p hp'
          simp only [List.length_drop]
          omega
      · split at hp
        · simp at hp
        · rename_i hg hne
          rcases List.mem_singleton.mp hp with rfl
          push_neg at hg
          exact ⟨Or.inl (hg hne), hne⟩

theorem splitGo_spec {α : Type} [LinearOrder α] (w : List Char → α) (maxW : α)
    (x : List Char) :
    ∀ p ∈ splitGo w maxW x, (w p ≤ maxW ∨ p.length = 1) ∧ p ≠ [] :=
  splitGoFuel_spec w maxW x.length x le_rfl

theorem splitGo_ne_nil {α : Type} [LinearOrder α] (w : List Char → α) (maxW : α)
    (x : List Char) (hx : x ≠ []) : splitGo w maxW x ≠ [] := by
  unfold splitGo
  cases x with
  | nil => exact absurd rfl hx
  | cons c t =>
      simp only [List.length_cons]
      rw [splitGoFuel]
      split
      · simp [List.length_cons]
      · simp

theorem splitLongToken_spec {α : Type} [LinearOrder α] (w : List Char → α)
    (maxW : α) (tok : List Char) (htok : tok ≠ []) :
    ∀ p ∈ splitLongToken w maxW tok, (w p ≤ maxW ∨ p.length = 1) ∧ p ≠ [] := by
  intro p hp
  unfold splitLongToken at hp
  rw [if_neg (by simpa [List.isEmpty_iff] using splitGo_ne_nil w maxW tok htok)] at hp
  exact splitGo_spec w maxW tok p hp

end PdfX.GQ

namespace PdfX

theorem wrapStep_inv {α : Type} [LinearOrder α] (w : List Char → α) (maxW : α)
    (acc : List (List Char) × List Char) (piece : List Char)
    (hacc : WrapInv w maxW acc) (hp : w piece ≤ maxW ∨ piece.length = 1) :
    WrapInv w maxW (wrapStep w maxW acc piece) := by
  unfold wrapStep WrapInv
  dsimp only
  split
  · exact ⟨hacc.1, Or.inr (Or.inl (by assumption))⟩
  · refine ⟨?_, Or.inr hp⟩
    split
    · exact hacc.1
    · rename_i hne
      intro l hl
      rcases List.mem_append.mp hl with h | h
      · exact hacc.1 l h
      · rcases List.mem_singleton.mp h with rfl
        rcases hacc.2 with h2 | h2
        · rw [h2] at hne
          simp at hne
        · exact h2

theorem foldl_wrapStep_inv {α : Type} [LinearOrder α] (w : List Char → α)
    (maxW : α) (ps : List (List Char)) (hps : ∀ p ∈ ps, w p ≤ maxW ∨ p.length = 1) :
    ∀ acc, WrapInv w maxW acc → WrapInv w maxW (ps.foldl (wrapStep w maxW) acc) := by
  induction ps with
  | nil => intro acc h; exact h
  | cons p rest ih =>
      intro acc h
      exact ih (fun q hq => hps q (List.mem_cons_of_mem p hq)) _
        (wrapStep_inv w maxW acc p h (hps p (List.mem_cons_self p rest)))

theorem wrapFinish_spec {α : Type} [LinearOrder α] (w : List Char → α) (maxW : α)
    (acc : List (List Char) × List Char) (hacc : WrapInv w maxW acc)
    (h0 : w [] ≤ maxW) :
    ∀ l ∈ wrapFinish acc, w l ≤ maxW ∨ l.length = 1 := by
  unfold wrapFinish
  dsimp only
  intro l hl
  split at hl
  · split at hl
    · rcases List.mem_singleton.mp hl with rfl
      exact Or.inl h0
    · exact hacc.1 l hl
  · rename_i hne
    rw [if_neg (by simp)] at hl
    rcases List.mem_append.mp hl with h | h
    · exact hacc.1 l h
    · rcases List.mem_singleton.mp h with rfl
      rcases hacc.2 with h2 | h2
      · rw [h2] at hne
        simp at hne
      · exact h2

theorem gq_fold_words_inv {α : Type} [LinearOrder α] (w : List Char → α)
    (maxW : α) (ws : List (List Char)) (hws : ∀ wd ∈ ws, wd ≠ []) :
    ∀ acc, WrapInv w maxW acc →
      WrapInv w maxW (ws.foldl
        (fun acc word => (GQ.splitLongToken w maxW word).foldl (wrapStep w maxW) acc)
        acc) := by
  induction ws with
  | nil => intro acc h; exact h
  | cons wd rest ih =>
      intro acc h
      refine ih (fun q hq => hws q (List.mem_cons_of_mem _ hq)) _ ?_
      refine foldl_wrapStep_inv w maxW _ ?_ acc h
      intro p hp
      exact (GQ.splitLongToken_spec w maxW wd (hws wd (List.mem_cons_self _ _)) p hp).1

/-- Claim C3 (amended): for `generate_quote.py`'s `wrap_text`, provided
the empty string measures within `maxWidth`, every returned line either
fits within `maxWidth` or is a degenerate single character that alone
exceeds `maxWidth`.  (`app.py`'s `_wrap_text` does not satisfy the
original claim: it never splits long words — see the counterexample.) -/
theorem claim3_wrap_lines_fit {α : Type} [LinearOrder α] (w : List Char → α)
    (maxW : α) (text : Option (List Char)) (h0 : w [] ≤ maxW) :
    ∀ l ∈ GQ.wrapText w maxW text, w l ≤ maxW ∨ (l.length = 1 ∧ maxW < w l) := by
  intro l hl
  unfold GQ.wrapText at hl
  have key := wrapFinish_spec w maxW _
    (gq_fold_words_inv w maxW (pwords (text.getD [])) (pwords_ne_nil _)
      ([], []) ⟨by simp, Or.inl rfl⟩) h0 l hl
  rcases key with h | h
  · exact Or.inl h
  · by_cases hw : w l ≤ maxW
    · exact Or.inl hw
    · exact Or.inr ⟨h, lt_of_not_le hw⟩

/-- Claim C3 (witness): the amended theorem applied to the word "aabb"
under a ten-units-per-character measure with `maxWidth = 25`; the line
"aa" is produced by the splitter and fits. -/
theorem claim3_witness :
    wTen ['a', 'a'] ≤ 25 ∨ (['a', 'a'].length = 1 ∧ (25:ℤ) < wTen ['a', 'a']) :=
  claim3_wrap_lines_fit wTen 25 (some ['a', 'a', 'b', 'b'])
    (by decide) ['a', 'a'] (by decide)

/-- Claim C3 (counterexample): `app.py`'s `_wrap_text` does not split a
single word wider than `maxWidth`: wrapping the word "abc" under a
ten-units-per-character measure with `maxWidth = 25` returns the word
unsplit, as a line of measured width 30 > 25 that is not a
single-character line. -/
theorem claim3_counterexample :
    ['a', 'b', 'c'] ∈ App.wrapText wTen 25 (some ['a', 'b', 'c']) ∧
      (25:ℤ) < wTen ['a', 'b', 'c'] ∧ ['a', 'b', 'c'].length ≠ 1 := by
  decide

/-- Claim C8: both text wrappers (`wrap_text` in generate_quote.py and
`_wrap_text` in app.py) return exactly one entry — the empty string —
on empty input and on null input, for every measure and width. -/
theorem claim8_wrap_totality {α : Type} [LinearOrder α] (w : List Char → α)
    (maxW : α) :
    GQ.wrapText w maxW Option.none = [[]] ∧
      GQ.wrapText w maxW (some []) = [[]] ∧
      App.wrapText w maxW Option.none = [[]] ∧
      App.wrapText w maxW (some []) = [[]] :=
  ⟨rfl, rfl, rfl, rfl⟩

/-- Claim C1 (amended): for both `ensure_space` implementations, after
a call with `h` at most the usable page height the space between the
cursor and the bottom margin is at least `h`; `generate_quote.py`'s
version is a no-op exactly when `y - MARGIN ≥ h`, while `app.py`'s
version is a no-op only under the stricter test
`y - MARGIN - 5 mm ≥ h`, and on overflow both reset the cursor to the
top margin of a fresh page and increment the page counter. -/
theorem claim1_ensure_space (h : ℤ) (st : RS)
    (hGQ : h ≤ PAGE_H - 2 * GQ.MARGIN) (hApp : h ≤ PAGE_H - 2 * App.MARGIN) :
    (h ≤ (GQ.ensureSpace h Option.none st).y - GQ.MARGIN ∧
      h ≤ (App.ensureSpace h st).y - App.MARGIN) ∧
    (h ≤ st.y - GQ.MARGIN → GQ.ensureSpace h Option.none st = st) ∧
    (¬h ≤ st.y - GQ.MARGIN →
      (GQ.ensureSpace h Option.none st).y = PAGE_H - GQ.MARGIN ∧
        (GQ.ensureSpace h Option.none st).page = st.page + 1) ∧
    (h ≤ st.y - App.MARGIN - 5 * mmU → App.ensureSpace h st = st) ∧
    (¬h ≤ st.y - App.MARGIN - 5 * mmU →
      (App.ensureSpace h st).y = PAGE_H - App.MARGIN ∧
        (App.ensureSpace h st).page = st.page + 1) := by
  unfold GQ.ensureSpace App.ensureSpace
  simp only [RS.emit, show PAGE_H = 29700 from rfl, show GQ.MARGIN = 1800 from rfl,
    show App.MARGIN = 1400 from rfl, show mmU = (100:ℤ) from rfl] at hGQ hApp ⊢
  refine ⟨⟨?_, ?_⟩, ?_, ?_, ?_, ?_⟩ <;>
    split <;> first | rfl | omega | (intro hh; simp_all) | simp_all

/-- Claim C1 (witness): the amended theorem evaluated at `h = 100`
units and a cursor 2 mm above the bottom margin plus `h`, on the first
page; `generate_quote.py`'s version no-ops, `app.py`'s version is
evaluated through the same bound. -/
theorem claim1_witness :
    ((100:ℤ) ≤ (GQ.ensureSpace 100 Option.none ⟨GQ.MARGIN + 200, 1, []⟩).y - GQ.MARGIN ∧
      (100:ℤ) ≤ (App.ensureSpace 100 ⟨GQ.MARGIN + 200, 1, []⟩).y - App.MARGIN) ∧
    ((100:ℤ) ≤ (⟨GQ.MARGIN + 200, 1, []⟩ : RS).y - GQ.MARGIN →
      GQ.ensureSpace 100 Option.none ⟨GQ.MARGIN + 200, 1, []⟩ = ⟨GQ.MARGIN + 200, 1, []⟩) ∧
    (¬(100:ℤ) ≤ (⟨GQ.MARGIN + 200, 1, []⟩ : RS).y - GQ.MARGIN →
      (GQ.ensureSpace 100 Option.none ⟨GQ.MARGIN + 200, 1, []⟩).y = PAGE_H - GQ.MARGIN ∧
        (GQ.ensureSpace 100 Option.none ⟨GQ.MARGIN + 200, 1, []⟩).page = 1 + 1) ∧
    ((100:ℤ) ≤ (⟨GQ.MARGIN + 200, 1, []⟩ : RS).y - App.MARGIN - 5 * mmU →
      App.ensureSpace 100 ⟨GQ.MARGIN + 200, 1, []⟩ = ⟨GQ.MARGIN + 200, 1, []⟩) ∧
    (¬(100:ℤ) ≤ (⟨GQ.MARGIN + 200, 1, []⟩ : RS).y - App.MARGIN - 5 * mmU →
      (App.ensureSpace 100 ⟨GQ.MARGIN + 200, 1, []⟩).y = PAGE_H - App.MARGIN ∧
        (App.ensureSpace 100 ⟨GQ.MARGIN + 200, 1, []⟩).page = 1 + 1) :=
  claim1_ensure_space 100 ⟨GQ.MARGIN + 200, 1, []⟩ (by decide) (by decide)

/-- Claim C1 (counterexample): `app.py`'s `ensure_space` is not a no-op
whenever the space between the cursor and the bottom margin already
suffices: with 2 mm of cursor space beyond the bottom margin and only
100 units (1 mm) required, the space is sufficient, yet the call starts
a new page and moves the cursor. -/
theorem claim1_counterexample :
    (100:ℤ) ≤ (⟨App.MARGIN + 200, 1, []⟩ : RS).y - App.MARGIN ∧
      (App.ensureSpace 100 ⟨App.MARGIN + 200, 1, []⟩).y ≠
        (⟨App.MARGIN + 200, 1, []⟩ : RS).y ∧
      (App.ensureSpace 100 ⟨App.MARGIN + 200, 1, []⟩).page = 2 := by
  decide

end PdfX

namespace PdfX

theorem inject_note_charge_stable (d : GQ.GQData)
    (h : d.note_already_included.truthy = true ∨
      ¬(d.line_items.filter GQ.hasNoteItem).isEmpty = true) :
    GQ.inject_note_charge d = d := by
  unfold GQ.inject_note_charge
  by_cases ht : d.note_already_included.truthy = true
  · simp [ht]
  · rcases h with h | h
    · exact absurd h ht
    · rw [if_neg ht, if_pos h]

theorem inject_note_charge_idem (d : GQ.GQData) :
    GQ.inject_note_charge (GQ.inject_note_charge d) = GQ.inject_note_charge d := by
  by_cases ht : d.note_already_included.truthy = true
  · rw [inject_note_charge_stable d (Or.inl ht),
      inject_note_charge_stable d (Or.inl ht)]
  · by_cases he : (d.line_items.filter GQ.hasNoteItem).isEmpty = true
    · cases hh : GQ.is_hazardous d with
      | true =>
          have hd : GQ.inject_note_charge d =
              { d with
                line_items := d.line_items ++ [GQ.noteCharge "Consignment Note".toList],
                noteType := some "Consignment Note".toList } := by
            unfold GQ.inject_note_charge
            rw [if_neg ht, if_neg (not_not_intro he), hh]
            simp
          rw [hd]
          apply inject_note_charge_stable
          right
          simp only [List.filter_append]
          rw [List.isEmpty_iff]
          intro hx
          rcases List.append_eq_nil.mp hx with ⟨_, h2⟩
          exact absurd h2 (by decide)
      | false =>
          have hd : GQ.inject_note_charge d =
              { d with
                line_items := d.line_items ++ [GQ.noteCharge "Waste Transfer Note".toList],
                noteType := some "Waste Transfer Note".toList } := by
            unfold GQ.inject_note_charge
            rw [if_neg ht, if_neg (not_not_intro he), hh]
            simp
          rw [hd]
          apply inject_note_charge_stable
          right
          simp only [List.filter_append]
          rw [List.isEmpty_iff]
          intro hx
          rcases List.append_eq_nil.mp hx with ⟨_, h2⟩
          exact absurd h2 (by decide)
    · rw [inject_note_charge_stable d (Or.inr he),
        inject_note_charge_stable d (Or.inr he)]

theorem inject_note_charge_len (d : GQ.GQData) :
    (GQ.inject_note_charge d).line_items.length ≤ d.line_items.length + 1 := by
  by_cases ht : d.note_already_included.truthy = true
  · rw [inject_note_charge_stable d (Or.inl ht)]
    omega
  · by_cases he : (d.line_items.filter GQ.hasNoteItem).isEmpty = true
    · unfold GQ.inject_note_charge
      rw [if_neg ht, if_neg (not_not_intro he)]
      simp
    · rw [inject_note_charge_stable d (Or.inr he)]
      omega

theorem injectDocTypeLine_idem (items : List App.AppItem) (docType : PyVal) :
    App.injectDocTypeLine (App.injectDocTypeLine items docType) docType =
      App.injectDocTypeLine items docType := by
  by_cases hd : pstrip (pyStrOr docType) ≠ "Consignment Note".toList ∧
      pstrip (pyStrOr docType) ≠ "Waste Transfer Note".toList
  · unfold App.injectDocTypeLine
    simp only [if_pos hd]
  · have hdoc : pstrip (pyStrOr docType) = "Consignment Note".toList ∨
        pstrip (pyStrOr docType) = "Waste Transfer Note".toList := by
      rcases not_and_or.mp hd with h | h
      · exact Or.inl (not_not.mp h)
      · exact Or.inr (not_not.mp h)
    by_cases ha : (items.any (fun it =>
        App.NOTE_NAMES.contains (plower (pstrip (pyStrOr it.description))))) = true
    · unfold App.injectDocTypeLine
      rw [if_neg hd, if_neg (not_not_intro ha), if_neg hd, if_neg (not_not_intro ha)]
    · have happ : App.injectDocTypeLine items docType =
          items ++ [App.docTypeLine (pstrip (pyStrOr docType))] := by
        unfold App.injectDocTypeLine
        rw [if_neg hd, if_pos ha]
      rw [happ]
      unfold App.injectDocTypeLine
      rw [if_neg hd]
      have hnew : App.NOTE_NAMES.contains
          (plower (pstrip (pyStrOr (App.docTypeLine
            (pstrip (pyStrOr docType))).description))) = true := by
        rcases hdoc with h | h <;> rw [h] <;> decide
      rw [if_neg]
      push_neg
      simp only [List.any_append, List.any_cons, List.any_nil, hnew]
      simp

theorem injectDocTypeLine_len (items : List App.AppItem) (docType : PyVal) :
    (App.injectDocTypeLine items docType).length ≤ items.length + 1 := by
  unfold App.injectDocTypeLine
  split
  · omega
  · split
    · simp
    · omega

/-- Claim C10: both statutory-note injections are idempotent and
bounded: applying `inject_note_charge` (generate_quote.py) or
`_inject_doc_type_line` (app.py) to its own output changes nothing,
and one application appends at most one line item. -/
theorem claim10_inject_idempotent (d : GQ.GQData) (items : List App.AppItem)
    (docType : PyVal) :
    GQ.inject_note_charge (GQ.inject_note_charge d) = GQ.inject_note_charge d ∧
      (GQ.inject_note_charge d).line_items.length ≤ d.line_items.length + 1 ∧
      App.injectDocTypeLine (App.injectDocTypeLine items docType) docType =
        App.injectDocTypeLine items docType ∧
      (App.injectDocTypeLine items docType).length ≤ items.length + 1 :=
  ⟨inject_note_charge_idem d, inject_note_charge_len d,
    injectDocTypeLine_idem items docType, injectDocTypeLine_len items docType⟩

/-- Claim C7: the table price is coerced through the source chain
price → line_total → unit_price → 0 and `float`: when the chain fails
to parse the price falls back to 0.0 and renders as "£0.00", when it
parses the parsed value is used, and generate_quote.py's `money` shows
"£0.00" on any unparsable value — the renderer never raises on
malformed numeric input. -/
theorem claim7_price_fallback (it : App.AppItem) (v : PyVal) :
    (App.priceSrc it = Option.none →
      App.priceOf it = 0 ∧ money (.num (App.priceOf it)) = "£0.00".toList) ∧
    (∀ q : ℚ, App.priceSrc it = some q → App.priceOf it = q) ∧
    (pyFloat v = Option.none → money v = "£0.00".toList) := by
  refine ⟨?_, ?_, ?_⟩
  · intro h
    have h0 : App.priceOf it = 0 := by rw [App.priceOf, h]; rfl
    refine ⟨h0, ?_⟩
    rw [h0]
    decide
  · intro q hq
    rw [App.priceOf, hq]
    rfl
  · intro hv
    unfold money
    rw [hv]

/-- Claim C7 (witness): the coercion theorem applied to an item whose
price field is the unparsable string "abc": it renders as "£0.00". -/
theorem claim7_witness :
    money (.num (App.priceOf badPriceItem)) = "£0.00".toList :=
  ((claim7_price_fallback badPriceItem PyVal.none).1 (by decide)).2

end PdfX

namespace PdfX.GQ

theorem drawNotesF_ge (L : ℕ) (bb : ℤ) :
    ∀ (fuel : ℕ) (ny : ℤ) (idx : ℕ), idx ≤ drawNotesF L bb fuel ny idx
  | 0, _, idx => le_refl idx
  | fuel + 1, ny, idx => by
      rw [drawNotesF]
      split
      · exact le_trans (by omega) (drawNotesF_ge L bb fuel (ny - 45 * mmU / 10) (idx + 1))
      · exact le_refl idx

theorem drawNotesF_progress1 (L : ℕ) (bb : ℤ) :
    ∀ (fuel : ℕ) (ny : ℤ) (idx : ℕ), 1 ≤ fuel → idx < L → bb ≤ ny →
      idx + 1 ≤ drawNotesF L bb fuel ny idx
  | 0, _, _ => by omega
  | fuel + 1, ny, idx => by
      intro _ hidx hny
      rw [drawNotesF]
      rw [if_pos ⟨hidx, hny⟩]
      exact drawNotesF_ge L bb fuel _ _

theorem drawNotesF_progress2 (L : ℕ) (bb : ℤ) :
    ∀ (fuel : ℕ) (ny : ℤ) (idx : ℕ), 2 ≤ fuel → idx + 1 < L → bb ≤ ny →
      bb ≤ ny - 45 * mmU / 10 → idx + 2 ≤ drawNotesF L bb fuel ny idx
  | 0, _, _ => by omega
  | 1, _, _ => by omega
  | fuel + 2, ny, idx => by
      intro _ hidx hny hny2
      rw [drawNotesF]
      rw [if_pos ⟨by omega, hny⟩]
      exact drawNotesF_progress1 L bb (fuel + 1) _ _ (by omega) hidx hny2

theorem drawNotesF_done (L : ℕ) (bb : ℤ) (fuel : ℕ) (ny : ℤ) (idx : ℕ)
    (h : L ≤ idx) : drawNotesF L bb fuel ny idx = idx := by
  cases fuel with
  | zero => rfl
  | succ f =>
      rw [drawNotesF]
      rw [if_neg]
      intro hc
      omega

theorem notesLoopF_bound (L : ℕ) :
    ∀ (fuel : ℕ) (st : RS) (idx : ℕ), L - idx ≤ 2 * fuel →
      (notesLoopF L (fuel + 1) st idx).1 ≤ (L - idx + 1) / 2 + 1
  | 0, st, idx => by
      intro hfu
      rw [notesLoopF]
      dsimp only
      split
      · omega
      · rename_i hL
        rw [if_pos ?_]
        · omega
        · rw [drawNotes, drawNotesF_done]
          · omega
          · omega
  | fuel + 1, st, idx => by
      intro hfu
      rw [notesLoopF]
      dsimp only
      split
      · omega
      · rename_i hL
        split
        · omega
        · rename_i hrec
          push_neg at hrec
          set st1 := ensureSpace (22 * mmU) Option.none st with hst1
          set commH := max (22 * mmU) (min (st1.y - MARGIN - 5 * mmU) (45 * mmU))
            with hcomm
          have hcommH : 22 * mmU ≤ commH := le_max_left _ _
          have hmm : mmU = 100 := rfl
          set idx2 := drawNotes L (st1.y - commH + 4 * mmU) (st1.y - 11 * mmU) idx
            with hidx2
          have hge : idx ≤ idx2 := drawNotesF_ge L _ L _ idx
          have hidxL : idx < L := by
            by_contra hc
            have := drawNotesF_done L (st1.y - commH + 4 * mmU) L
              (st1.y - 11 * mmU) idx (by omega)
            rw [hidx2, drawNotes, this] at hrec
            omega
          have hidx1L : idx + 1 < L := by
            by_contra hc
            have h1 : idx + 1 ≤ idx2 := by
              rw [hidx2, drawNotes]
              exact drawNotesF_progress1 L _ L _ idx (by omega) hidxL (by omega)
            omega
          have h2 : idx + 2 ≤ idx2 := by
            rw [hidx2, drawNotes]
            refine drawNotesF_progress2 L _ L _ idx (by omega) hidx1L (by omega) ?_
            omega
          have ih := notesLoopF_bound L fuel
            ((((st1.emit (.notesBox st1.page)).down commH).down (6 * mmU))) idx2
            (by omega)
          omega

/-- Claim C4: for any number `L` of wrapped note lines and any starting
state, the notes continuation loop terminates, within
`ceil(L / linesPerBox) + 1` iterations, and when the notes are empty it
draws the one-shot placeholder and exits on its first iteration. -/
theorem claim4_notes_termination (L : ℕ) (st : RS) :
    (notesLoop L st).1 ≤ (L + linesPerBox - 1) / linesPerBox + 1 ∧
      (L = 0 → (notesLoop L st).1 = 1) := by
  constructor
  · have h := notesLoopF_bound L L st 0 (by omega)
    rw [notesLoop]
    rw [show linesPerBox = 2 from rfl]
    omega
  · intro hL
    subst hL
    rw [notesLoop, notesLoopF]
    simp

/-- Claim C4 (witness): the termination bound evaluated at five wrapped
lines from a fresh top-of-page state. -/
theorem claim4_witness :
    (notesLoop 5 ⟨PAGE_H - MARGIN, 1, []⟩).1 ≤ (5 + linesPerBox - 1) / linesPerBox + 1 ∧
      ((5 : ℕ) = 0 → (notesLoop 5 ⟨PAGE_H - MARGIN, 1, []⟩).1 = 1) :=
  claim4_notes_termination 5 ⟨PAGE_H - MARGIN, 1, []⟩

end PdfX.GQ

namespace PdfX

theorem kvIdx_of_neutral (e : Ev) (h : isNeutral e = true) : kvIdx e = Option.none := by
  cases e <;> simp_all [isNeutral, kvIdx]

theorem secIdx_of_neutral (e : Ev) (h : isNeutral e = true) : secIdx e = Option.none := by
  cases e <;> simp_all [isNeutral, secIdx]

theorem isTableEv_of_neutral (e : Ev) (h : isNeutral e = true) : isTableEv e = false := by
  cases e <;> simp_all [isNeutral, isTableEv]

theorem isRowEv_of_neutral (e : Ev) (h : isNeutral e = true) : isRowEv e = false := by
  cases e <;> simp_all [isNeutral, isRowEv]

theorem neutral_tail_kv (l tl : List Ev) (h : tl.all isNeutral = true) :
    (l ++ tl).filterMap kvIdx = l.filterMap kvIdx := by
  have hnil : tl.filterMap kvIdx = [] := List.filterMap_eq_nil_iff.mpr
    (fun e he => kvIdx_of_neutral e (List.all_eq_true.mp h e he))
  rw [List.filterMap_append, hnil, List.append_nil]

theorem neutral_tail_sec (l tl : List Ev) (h : tl.all isNeutral = true) :
    (l ++ tl).filterMap secIdx = l.filterMap secIdx := by
  have hnil : tl.filterMap secIdx = [] := List.filterMap_eq_nil_iff.mpr
    (fun e he => secIdx_of_neutral e (List.all_eq_true.mp h e he))
  rw [List.filterMap_append, hnil, List.append_nil]

theorem neutral_tail_table (l tl : List Ev) (h : tl.all isNeutral = true) :
    (l ++ tl).filter isTableEv = l.filter isTableEv := by
  have hnil : tl.filter isTableEv = [] := List.filter_eq_nil_iff.mpr
    (fun e he => by simp [isTableEv_of_neutral e (List.all_eq_true.mp h e he)])
  rw [List.filter_append, hnil, List.append_nil]

theorem rowsCovered_append (l tl : List Ev) (hl : RowsCovered l)
    (htl : tl.all (fun e => !isRowEv e) = true) : RowsCovered (l ++ tl) := by
  intro i pg hmem
  rcases List.mem_append.mp hmem with h | h
  · exact List.mem_append.mpr (Or.inl (hl i pg h))
  · have := List.all_eq_true.mp htl _ h
    simp [isRowEv] at this

theorem NeutralExt.comp {f g : RS → RS} (hf : NeutralExt f) (hg : NeutralExt g) :
    NeutralExt (fun st => g (f st)) := by
  intro st
  obtain ⟨t1, h1, a1⟩ := hf st
  obtain ⟨t2, h2, a2⟩ := hg (f st)
  refine ⟨t1 ++ t2, ?_, ?_⟩
  · rw [h2, h1, List.append_assoc]
  · rw [List.all_append, a1, a2]
    rfl

theorem app_ensureSpace_neutral (n : ℤ) : NeutralExt (App.ensureSpace n) := by
  intro st
  unfold App.ensureSpace
  split
  · exact ⟨[], by simp⟩
  · exact ⟨[.footer st.page, .topBorder (st.page + 1)],
      by simp [RS.emit, isNeutral]⟩

theorem app_headerBlock_neutral (logoOk : Bool) : NeutralExt (App.headerBlock logoOk) := by
  intro st
  unfold App.headerBlock
  cases logoOk
  · exact ⟨[.topBorder st.page], by simp [RS.emit, RS.down, isNeutral]⟩
  · exact ⟨[.topBorder st.page, .logo st.page],
      by simp [RS.emit, RS.down, isNeutral]⟩

theorem app_titleBlock_neutral (v : PyVal) : NeutralExt (App.titleBlock v) := by
  intro st
  unfold App.titleBlock
  split
  · exact ⟨[.title st.page, .divider st.page],
      by simp [RS.emit, RS.down, isNeutral]⟩
  · exact ⟨[.divider st.page], by simp [RS.emit, RS.down, isNeutral]⟩

theorem app_addressBlock_neutral (v : PyVal) : NeutralExt (App.addressBlock v) := by
  intro st
  unfold App.addressBlock
  exact ⟨[.addresses st.page], by simp [RS.emit, isNeutral]⟩

theorem app_prepBlock_neutral : NeutralExt App.prepBlock := by
  intro st
  unfold App.prepBlock
  obtain ⟨t1, h1, a1⟩ := app_ensureSpace_neutral (17 * mmU + 6 * mmU) st
  refine ⟨t1 ++ [.preparedBy (App.ensureSpace (17 * mmU + 6 * mmU) st).page], ?_, ?_⟩
  · simp [RS.emit, RS.down, h1]
  · simp [List.all_append, a1, isNeutral]

theorem app_pillsBlock_neutral : NeutralExt App.pillsBlock := by
  intro st
  unfold App.pillsBlock
  obtain ⟨t1, h1, a1⟩ := app_ensureSpace_neutral (13 * mmU + 8 * mmU) st
  set st1 := App.ensureSpace (13 * mmU + 8 * mmU) st with hst1
  refine ⟨t1 ++ [.pill 0 st1.page, .pill 1 st1.page, .pill 2 st1.page], ?_, ?_⟩
  · simp [RS.emit, RS.down, h1]
  · simp [List.all_append, a1, isNeutral]

theorem app_caveatsBlock_neutral (M : Measure) (v : PyVal) :
    NeutralExt (App.caveatsBlock M v) := by
  intro st
  unfold App.caveatsBlock
  dsimp only
  obtain ⟨t1, h1, a1⟩ := app_ensureSpace_neutral (App.caveatsHeight M v) st
  set st1 := App.ensureSpace (App.caveatsHeight M v) st with hst1
  split
  · exact ⟨t1 ++ [Ev.notesBox st1.page, Ev.notesPlaceholder st1.page],
      by simp [RS.emit, RS.down, h1], by simp [List.all_append, a1, isNeutral]⟩
  · exact ⟨t1 ++ [Ev.notesBox st1.page],
      by simp [RS.emit, RS.down, h1], by simp [List.all_append, a1, isNeutral]⟩

end PdfX

namespace PdfX

theorem neutral_head_kv (t1 t2 : List Ev) (a1 : t1.all isNeutral = true) :
    (t1 ++ t2).filterMap kvIdx = t2.filterMap kvIdx := by
  rw [List.filterMap_append, List.filterMap_eq_nil_iff.mpr
    (fun e he => kvIdx_of_neutral e (List.all_eq_true.mp a1 e he)), List.nil_append]

theorem neutral_head_sec (t1 t2 : List Ev) (a1 : t1.all isNeutral = true) :
    (t1 ++ t2).filterMap secIdx = t2.filterMap secIdx := by
  rw [List.filterMap_append, List.filterMap_eq_nil_iff.mpr
    (fun e he => secIdx_of_neutral e (List.all_eq_true.mp a1 e he)), List.nil_append]

theorem neutral_head_table (t1 t2 : List Ev) (a1 : t1.all isNeutral = true) :
    (t1 ++ t2).filter isTableEv = t2.filter isTableEv := by
  rw [List.filter_append, List.filter_eq_nil_iff.mpr
    (fun e he => by simp [isTableEv_of_neutral e (List.all_eq_true.mp a1 e he)]),
    List.nil_append]

theorem app_kvRowStep_tail (M : Measure) (v : PyVal) (st : RS) (k : ℕ) :
    ∃ tl, (App.kvRowStep M v (st, k)).1.evs = st.evs ++ tl ∧
      tl.filterMap kvIdx = [k] ∧ tl.filterMap secIdx = [] ∧
      tl.filter isTableEv = [] := by
  unfold App.kvRowStep
  dsimp only
  obtain ⟨t1, h1, a1⟩ := app_ensureSpace_neutral (App.kvRowHeight M v) st
  set st1 := App.ensureSpace (App.kvRowHeight M v) st with hst1
  refine ⟨t1 ++ [Ev.kvRow k st1.page], by simp [RS.emit, RS.down, h1], ?_, ?_, ?_⟩
  · rw [neutral_head_kv _ _ a1]
    simp [kvIdx]
  · rw [neutral_head_sec _ _ a1]
    simp [secIdx]
  · rw [neutral_head_table _ _ a1]
    simp [isTableEv]

theorem app_kvFold_tail (M : Measure) :
    ∀ (fields : List PyVal) (st : RS) (k : ℕ),
      ∃ tl, (fields.foldl (fun a v => App.kvRowStep M v a) (st, k)).1.evs = st.evs ++ tl ∧
        (fields.foldl (fun a v => App.kvRowStep M v a) (st, k)).2 = k + fields.length ∧
        tl.filterMap kvIdx = List.range' k fields.length ∧
        tl.filterMap secIdx = [] ∧ tl.filter isTableEv = []
  | [], st, k => ⟨[], by simp, by simp, by simp, by simp, by simp⟩
  | v :: rest, st, k => by
      obtain ⟨t1, h1, f1, s1, b1⟩ := app_kvRowStep_tail M v st k
      obtain ⟨t2, h2, hk2, f2, s2, b2⟩ :=
        app_kvFold_tail M rest (App.kvRowStep M v (st, k)).1 (k + 1)
      have hstep : (v :: rest).foldl (fun a v => App.kvRowStep M v a) (st, k) =
          rest.foldl (fun a v => App.kvRowStep M v a)
            ((App.kvRowStep M v (st, k)).1, k + 1) := by
        rw [List.foldl_cons]
        rfl
      refine ⟨t1 ++ t2, ?_, ?_, ?_, ?_, ?_⟩
      · rw [hstep, h2, h1, List.append_assoc]
      · rw [hstep, hk2]
        simp only [List.length_cons]
        omega
      · rw [List.filterMap_append, f1, f2, List.length_cons, List.range'_succ]
        rfl
      · rw [List.filterMap_append, s1, s2]
        rfl
      · rw [List.filter_append, b1, b2]
        rfl

theorem app_sectionStep_tail (M : Measure) (i : ℕ) (fields : List PyVal)
    (st : RS) (k : ℕ) :
    ∃ tl, (App.sectionStep M i fields (st, k)).1.evs = st.evs ++ tl ∧
      (App.sectionStep M i fields (st, k)).2 = k + fields.length ∧
      tl.filterMap kvIdx = List.range' k fields.length ∧
      tl.filterMap secIdx = [i] ∧ tl.filter isTableEv = [] := by
  unfold App.sectionStep
  dsimp only
  obtain ⟨t1, h1, a1⟩ := app_ensureSpace_neutral (7 * mmU + 8 * mmU) st
  set st1 := App.ensureSpace (7 * mmU + 8 * mmU) st with hst1
  obtain ⟨t2, h2, hk2, f2, s2, b2⟩ := app_kvFold_tail M fields
    ((st1.emit (.sectionHeader i st1.page)).down (7 * mmU)) k
  refine ⟨(t1 ++ [Ev.sectionHeader i st1.page]) ++ t2, ?_, hk2, ?_, ?_, ?_⟩
  · rw [h2]
    simp [RS.emit, RS.down, h1, List.append_assoc]
  · rw [List.filterMap_append, neutral_head_kv _ _ a1, f2]
    simp [kvIdx]
  · rw [List.filterMap_append, neutral_head_sec _ _ a1, s2]
    simp [secIdx]
  · rw [List.filter_append, neutral_head_table _ _ a1, b2]
    simp [isTableEv]

theorem app_sectionsGo_tail (M : Measure) :
    ∀ (secs : List (List PyVal)) (i : ℕ) (st : RS) (k : ℕ),
      ∃ tl, (App.sectionsGo M secs i (st, k)).1.evs = st.evs ++ tl ∧
        (App.sectionsGo M secs i (st, k)).2 = k + (secs.map List.length).sum ∧
        tl.filterMap kvIdx = List.range' k (secs.map List.length).sum ∧
        tl.filterMap secIdx = List.range' i secs.length ∧
        tl.filter isTableEv = []
  | [], i, st, k => ⟨[], by simp [App.sectionsGo], by simp [App.sectionsGo],
      by simp, by simp, by simp⟩
  | fs :: rest, i, st, k => by
      obtain ⟨t1, h1, hk1, f1, s1, b1⟩ := app_sectionStep_tail M i fs st k
      obtain ⟨t2, h2, hk2, f2, s2, b2⟩ := app_sectionsGo_tail M rest (i + 1)
        (App.sectionStep M i fs (st, k)).1 (k + fs.length)
      have hstep : App.sectionsGo M (fs :: rest) i (st, k) =
          App.sectionsGo M rest (i + 1)
            ((App.sectionStep M i fs (st, k)).1, k + fs.length) := by
        rw [App.sectionsGo]
        congr 1
        rw [← hk1]
      refine ⟨t1 ++ t2, ?_, ?_, ?_, ?_, ?_⟩
      · rw [hstep, h2, h1, List.append_assoc]
      · rw [hstep, hk2]
        simp only [List.map_cons, List.sum_cons]
        omega
      · rw [List.filterMap_append, f1, f2]
        have := List.range'_append k fs.length ((rest.map List.length).sum) 1
        simp only [one_mul] at this
        rw [this]
        simp only [List.map_cons, List.sum_cons]
        congr 1
        omega
      · rw [List.filterMap_append, s1, s2, List.length_cons, List.range'_succ]
        rfl
      · rw [List.filter_append, b1, b2]
        rfl

end PdfX

namespace PdfX

theorem isHeaderEv_of_neutral (e : Ev) (h : isNeutral e = true) :
    isHeaderEv e = false := by
  cases e <;> simp_all [isNeutral, isHeaderEv]

theorem neutral_no_header (t : List Ev) (a : t.all isNeutral = true) :
    t.filter isHeaderEv = [] :=
  List.filter_eq_nil_iff.mpr
    (fun e he => by simp [isHeaderEv_of_neutral e (List.all_eq_true.mp a e he)])

theorem rows_tail_parts (tl : List Ev)
    (h : tl.all (fun e => isRowEv e || isNeutral e) = true) :
    tl.filterMap kvIdx = [] ∧ tl.filterMap secIdx = [] ∧
      tl.filter isHeaderEv = [] := by
  refine ⟨List.filterMap_eq_nil_iff.mpr ?_, List.filterMap_eq_nil_iff.mpr ?_,
    List.filter_eq_nil_iff.mpr ?_⟩
  · intro e he
    have := List.all_eq_true.mp h e he
    cases e <;> simp_all [isRowEv, isNeutral, kvIdx]
  · intro e he
    have := List.all_eq_true.mp h e he
    cases e <;> simp_all [isRowEv, isNeutral, secIdx]
  · intro e he
    have := List.all_eq_true.mp h e he
    cases e <;> simp_all [isRowEv, isNeutral, isHeaderEv]

theorem app_rowsGo_eq (it : App.AppItem) (rest : List App.AppItem) (idx : ℕ) (st : RS) :
    App.rowsGo (it :: rest) idx st =
      App.rowsGo rest (idx + 1)
        (((App.ensureSpace (App.rowHeightOf it) st).emit
          (.tableRow idx (App.ensureSpace (App.rowHeightOf it) st).page)).down
          (App.rowHeightOf it)) :=
  rfl

theorem app_rowsGo_tail :
    ∀ (items : List App.AppItem) (idx : ℕ) (st : RS),
      ∃ tl, (App.rowsGo items idx st).evs = st.evs ++ tl ∧
        tl.all (fun e => isRowEv e || isNeutral e) = true
  | [], idx, st => ⟨[], by simp [App.rowsGo], by simp⟩
  | it :: rest, idx, st => by
      rw [app_rowsGo_eq]
      generalize App.rowHeightOf it = rh
      obtain ⟨t1, h1, a1⟩ := app_ensureSpace_neutral rh st
      set st1 := App.ensureSpace rh st with hst1
      obtain ⟨t2, h2, a2⟩ := app_rowsGo_tail rest (idx + 1)
        ((st1.emit (.tableRow idx st1.page)).down rh)
      refine ⟨(t1 ++ [Ev.tableRow idx st1.page]) ++ t2, ?_, ?_⟩
      · rw [h2, show ((st1.emit (Ev.tableRow idx st1.page)).down rh).evs
          = st1.evs ++ [Ev.tableRow idx st1.page] from rfl, h1]
        simp [List.append_assoc]
      · simp only [List.all_append, Bool.and_eq_true]
        refine ⟨⟨?_, ?_⟩, a2⟩
        · rw [List.all_eq_true]
          intro e he
          simp [List.all_eq_true.mp a1 e he]
        · simp [isRowEv]

theorem app_tableBlock_eq (line_items : List App.AppItem) (document_type : PyVal)
    (st : RS) :
    App.tableBlock line_items document_type st =
      (if ¬(App.injectDocTypeLine line_items document_type).isEmpty then
        let st1 := App.ensureSpace (9 * mmU) st
        let st2 := (st1.emit (.tableHeader st1.page)).down (9 * mmU)
        let st3 := App.rowsGo (App.injectDocTypeLine line_items document_type) 0 st2
        let st4 := App.ensureSpace (10 * mmU) st3
        ((st4.emit (.totalBand st4.page)).down (10 * mmU + 8 * mmU))
      else st) :=
  rfl

theorem app_tableBlock_tail (items : List App.AppItem) (docType : PyVal) (st : RS) :
    ∃ tl, (App.tableBlock items docType st).evs = st.evs ++ tl ∧
      tl.filterMap kvIdx = [] ∧ tl.filterMap secIdx = [] ∧
      (tl.filter isHeaderEv).length ≤ 1 := by
  rw [app_tableBlock_eq]
  generalize App.injectDocTypeLine items docType = inj
  split
  · dsimp only
    obtain ⟨t1, h1, a1⟩ := app_ensureSpace_neutral (9 * mmU) st
    set st1 := App.ensureSpace (9 * mmU) st with hst1
    set st2 := (st1.emit (.tableHeader st1.page)).down (9 * mmU) with hst2
    obtain ⟨t2, h2, a2⟩ := app_rowsGo_tail inj 0 st2
    set st3 := App.rowsGo inj 0 st2 with hst3
    obtain ⟨t3, h3, a3⟩ := app_ensureSpace_neutral (10 * mmU) st3
    set st4 := App.ensureSpace (10 * mmU) st3 with hst4
    obtain ⟨k2, s2, hd2⟩ := rows_tail_parts t2 a2
    refine ⟨t1 ++ ([Ev.tableHeader st1.page] ++ (t2 ++ (t3 ++ [Ev.totalBand st4.page]))),
      ?_, ?_, ?_, ?_⟩
    · rw [show ((st4.emit (.totalBand st4.page)).down (10 * mmU + 8 * mmU)).evs =
        st4.evs ++ [Ev.totalBand st4.page] from rfl, h3, h2]
      rw [show st2.evs = st1.evs ++ [Ev.tableHeader st1.page] from rfl, h1]
      simp [List.append_assoc]
    · have n1 : t1.filterMap kvIdx = [] := List.filterMap_eq_nil_iff.mpr
        (fun e he => kvIdx_of_neutral e (List.all_eq_true.mp a1 e he))
      have n3 : t3.filterMap kvIdx = [] := List.filterMap_eq_nil_iff.mpr
        (fun e he => kvIdx_of_neutral e (List.all_eq_true.mp a3 e he))
      simp [List.filterMap_append, n1, n3, k2, kvIdx]
    · have n1 : t1.filterMap secIdx = [] := List.filterMap_eq_nil_iff.mpr
        (fun e he => secIdx_of_neutral e (List.all_eq_true.mp a1 e he))
      have n3 : t3.filterMap secIdx = [] := List.filterMap_eq_nil_iff.mpr
        (fun e he => secIdx_of_neutral e (List.all_eq_true.mp a3 e he))
      simp [List.filterMap_append, n1, n3, s2, secIdx]
    · simp [List.filter_append, neutral_no_header t1 a1, neutral_no_header t3 a3,
        hd2, isHeaderEv]
  · exact ⟨[], by simp, by simp, by simp, by simp⟩

theorem app_tableBlock_empty (docType : PyVal) (st : RS)
    (h : pstrip (pyStrOr docType) ≠ "Consignment Note".toList ∧
      pstrip (pyStrOr docType) ≠ "Waste Transfer Note".toList) :
    App.tableBlock [] docType st = st := by
  rw [app_tableBlock_eq]
  rw [show App.injectDocTypeLine [] docType = [] from by
    unfold App.injectDocTypeLine
    rw [if_pos h]]
  simp

end PdfX

namespace PdfX

theorem all_neutral_no_rows (tl : List Ev) (h : tl.all isNeutral = true) :
    tl.all (fun e => !isRowEv e) = true := by
  rw [List.all_eq_true] at h ⊢
  intro e he
  simp [isRowEv_of_neutral e (h e he)]

theorem rowsCovered_nil : RowsCovered [] := by
  intro i pg hmem
  simp at hmem

theorem rowsCovered_neutral_ext {f : RS → RS} (hf : NeutralExt f) (st : RS)
    (hc : RowsCovered st.evs) : RowsCovered (f st).evs := by
  obtain ⟨tl, h1, a1⟩ := hf st
  rw [h1]
  exact rowsCovered_append _ _ hc (all_neutral_no_rows tl a1)

theorem gq_ensureSpace_noop (r : ℤ) (red : Option (RS → RS)) (st : RS)
    (h : r ≤ st.y - GQ.MARGIN) : GQ.ensureSpace r red st = st := by
  unfold GQ.ensureSpace
  rw [if_pos h]

theorem gq_ensureSpace_none_neutral (r : ℤ) :
    NeutralExt (GQ.ensureSpace r Option.none) := by
  intro st
  unfold GQ.ensureSpace
  split
  · exact ⟨[], by simp⟩
  · exact ⟨[.footer st.page, .topBorder (st.page + 1)],
      by simp [RS.emit, isNeutral]⟩

theorem gq_headerBlock_neutral (logoOk : Bool) : NeutralExt (GQ.headerBlock logoOk) := by
  intro st
  unfold GQ.headerBlock
  cases logoOk
  · exact ⟨[.topBorder st.page, .logoPlaceholder st.page, .title st.page,
      .divider st.page], by simp [RS.emit, RS.down, isNeutral]⟩
  · exact ⟨[.topBorder st.page, .logo st.page, .title st.page, .divider st.page],
      by simp [RS.emit, RS.down, isNeutral]⟩

theorem gq_addressBlock_neutral (d : GQ.GQData) : NeutralExt (GQ.addressBlock d) := by
  intro st
  unfold GQ.addressBlock
  exact ⟨[.addresses st.page], by simp [RS.emit, isNeutral]⟩

theorem gq_prepBlock_neutral : NeutralExt GQ.prepBlock := by
  intro st
  unfold GQ.prepBlock
  obtain ⟨t1, h1, a1⟩ := gq_ensureSpace_none_neutral (17 * mmU + 6 * mmU) st
  refine ⟨t1 ++
    [.preparedBy (GQ.ensureSpace (17 * mmU + 6 * mmU) Option.none st).page], ?_, ?_⟩
  · simp [RS.emit, RS.down, h1]
  · simp [List.all_append, a1, isNeutral]

theorem gq_pillsBlock_neutral : NeutralExt GQ.pillsBlock := by
  intro st
  unfold GQ.pillsBlock
  obtain ⟨t1, h1, a1⟩ := gq_ensureSpace_none_neutral (13 * mmU + 8 * mmU) st
  set st1 := GQ.ensureSpace (13 * mmU + 8 * mmU) Option.none st with hst1
  refine ⟨t1 ++ [.pill 0 st1.page, .pill 1 st1.page], ?_, ?_⟩
  · simp [RS.emit, RS.down, h1]
  · simp [List.all_append, a1, isNeutral]

theorem gq_ensureSpace_hdr_break (r : ℤ) (st : RS) (hbr : ¬ r ≤ st.y - GQ.MARGIN) :
    GQ.ensureSpace r (some GQ.drawTableHeader) st =
      { y := PAGE_H - GQ.MARGIN - GQ.hdr_h, page := st.page + 1,
        evs := st.evs ++ [Ev.footer st.page, Ev.topBorder (st.page + 1),
          Ev.tableHeader (st.page + 1)] } := by
  unfold GQ.ensureSpace GQ.drawTableHeader
  rw [if_neg hbr]
  simp [RS.emit, RS.down]

theorem gq_ensureSpace_hdr_inv (r : ℤ) (st : RS)
    (hc : RowsCovered st.evs) (hh : Ev.tableHeader st.page ∈ st.evs) :
    RowsCovered (GQ.ensureSpace r (some GQ.drawTableHeader) st).evs ∧
      Ev.tableHeader (GQ.ensureSpace r (some GQ.drawTableHeader) st).page ∈
        (GQ.ensureSpace r (some GQ.drawTableHeader) st).evs := by
  by_cases hbr : r ≤ st.y - GQ.MARGIN
  · rw [gq_ensureSpace_noop r _ st hbr]
    exact ⟨hc, hh⟩
  · rw [gq_ensureSpace_hdr_break r st hbr]
    refine ⟨?_, ?_⟩
    · intro i pg hmem
      rcases List.mem_append.mp hmem with h | h
      · exact List.mem_append.mpr (Or.inl (hc i pg h))
      · simp at h
    · simp

theorem gq_rowsGo_eq (it : GQ.GQItem) (rest : List GQ.GQItem) (idx : ℕ) (st : RS) :
    GQ.rowsGo (it :: rest) idx st =
      GQ.rowsGo rest (idx + 1)
        (((GQ.ensureSpace GQ.row_h (some GQ.drawTableHeader) st).emit
          (.tableRow idx (GQ.ensureSpace GQ.row_h (some GQ.drawTableHeader) st).page)).down
          GQ.row_h) :=
  rfl

theorem gq_rowsGo_inv :
    ∀ (items : List GQ.GQItem) (idx : ℕ) (st : RS),
      RowsCovered st.evs → Ev.tableHeader st.page ∈ st.evs →
      RowsCovered (GQ.rowsGo items idx st).evs ∧
        Ev.tableHeader (GQ.rowsGo items idx st).page ∈ (GQ.rowsGo items idx st).evs
  | [], idx, st => fun hc hh => ⟨hc, hh⟩
  | it :: rest, idx, st => by
      intro hc hh
      rw [gq_rowsGo_eq]
      obtain ⟨hc1, hh1⟩ := gq_ensureSpace_hdr_inv GQ.row_h st hc hh
      set st1 := GQ.ensureSpace GQ.row_h (some GQ.drawTableHeader) st with hst1
      refine gq_rowsGo_inv rest (idx + 1) _ ?_ ?_
      · intro i pg hmem
        rw [show ((st1.emit (Ev.tableRow idx st1.page)).down GQ.row_h).evs =
          st1.evs ++ [Ev.tableRow idx st1.page] from rfl] at hmem ⊢
        rcases List.mem_append.mp hmem with h | h
        · exact List.mem_append.mpr (Or.inl (hc1 i pg h))
        · simp at h
          rw [h.2]
          exact List.mem_append.mpr (Or.inl hh1)
      · rw [show ((st1.emit (Ev.tableRow idx st1.page)).down GQ.row_h).evs =
          st1.evs ++ [Ev.tableRow idx st1.page] from rfl,
          show ((st1.emit (Ev.tableRow idx st1.page)).down GQ.row_h).page =
          st1.page from rfl]
        exact List.mem_append.mpr (Or.inl hh1)

theorem gq_tableBlock_inv (items : List GQ.GQItem) (st : RS)
    (hc : RowsCovered st.evs) : RowsCovered (GQ.tableBlock items st).evs := by
  unfold GQ.tableBlock
  dsimp only
  obtain ⟨t1, h1, a1⟩ := gq_ensureSpace_none_neutral GQ.hdr_h st
  set st1 := GQ.ensureSpace GQ.hdr_h Option.none st with hst1
  have hc1 : RowsCovered st1.evs := by
    rw [h1]
    exact rowsCovered_append _ _ hc (all_neutral_no_rows t1 a1)
  have hd : RowsCovered (GQ.drawTableHeader st1).evs ∧
      Ev.tableHeader (GQ.drawTableHeader st1).page ∈ (GQ.drawTableHeader st1).evs := by
    unfold GQ.drawTableHeader
    refine ⟨?_, ?_⟩
    · rw [show ((st1.emit (Ev.tableHeader st1.page)).down GQ.hdr_h).evs =
        st1.evs ++ [Ev.tableHeader st1.page] from rfl]
      exact rowsCovered_append _ _ hc1 (by simp [isRowEv])
    · rw [show ((st1.emit (Ev.tableHeader st1.page)).down GQ.hdr_h).evs =
        st1.evs ++ [Ev.tableHeader st1.page] from rfl,
        show ((st1.emit (Ev.tableHeader st1.page)).down GQ.hdr_h).page =
        st1.page from rfl]
      exact List.mem_append.mpr (Or.inr (by simp))
  obtain ⟨hc2, _⟩ := gq_rowsGo_inv items 0 (GQ.drawTableHeader st1) hd.1 hd.2
  exact hc2

theorem gq_totalBlock_cov (st : RS) (hc : RowsCovered st.evs) :
    RowsCovered (GQ.totalBlock st).evs := by
  unfold GQ.totalBlock
  dsimp only
  obtain ⟨t1, h1, a1⟩ :=
    gq_ensureSpace_none_neutral (10 * mmU + 2 * mmU + 14 * mmU + 10 * mmU) st
  set st1 := GQ.ensureSpace (10 * mmU + 2 * mmU + 14 * mmU + 10 * mmU) Option.none st
    with hst1
  show RowsCovered (st1.evs ++ [Ev.totalBand st1.page])
  rw [h1, List.append_assoc]
  refine rowsCovered_append _ _ hc ?_
  rw [List.all_append, Bool.and_eq_true]
  exact ⟨all_neutral_no_rows t1 a1, by simp [isRowEv]⟩

theorem gq_notesLoopF_cov (L : ℕ) :
    ∀ (fuel : ℕ) (st : RS) (idx : ℕ), RowsCovered st.evs →
      RowsCovered (GQ.notesLoopF L fuel st idx).2.evs
  | 0, st, idx => fun hc => hc
  | fuel + 1, st, idx => by
      intro hc
      rw [GQ.notesLoopF]
      dsimp only
      obtain ⟨t1, h1, a1⟩ := gq_ensureSpace_none_neutral (22 * mmU) st
      set st1 := GQ.ensureSpace (22 * mmU) Option.none st with hst1
      have hc1 : RowsCovered st1.evs := by
        rw [h1]
        exact rowsCovered_append _ _ hc (all_neutral_no_rows t1 a1)
      split
      · show RowsCovered ((st1.evs ++ [Ev.notesBox st1.page]) ++
          [Ev.notesPlaceholder st1.page])
        rw [List.append_assoc]
        exact rowsCovered_append _ _ hc1 (by simp [isRowEv])
      · split
        · show RowsCovered (st1.evs ++ [Ev.notesBox st1.page])
          exact rowsCovered_append _ _ hc1 (by simp [isRowEv])
        · refine gq_notesLoopF_cov L fuel _ _ ?_
          show RowsCovered (st1.evs ++ [Ev.notesBox st1.page])
          exact rowsCovered_append _ _ hc1 (by simp [isRowEv])

theorem gq_generatePdf_covered (M : Measure) (logoOk : Bool) (d : GQ.GQData) :
    RowsCovered (GQ.generatePdf M logoOk d).evs := by
  unfold GQ.generatePdf
  dsimp only
  set s0 : RS := ⟨PAGE_H - GQ.MARGIN, 1, []⟩ with hs0
  have c0 : RowsCovered s0.evs := rowsCovered_nil
  have c1 := rowsCovered_neutral_ext (gq_headerBlock_neutral logoOk) s0 c0
  have c2 := rowsCovered_neutral_ext (gq_addressBlock_neutral d) _ c1
  have c3 := rowsCovered_neutral_ext gq_prepBlock_neutral _ c2
  have c4 := rowsCovered_neutral_ext gq_pillsBlock_neutral _ c3
  have c5 := gq_tableBlock_inv d.line_items _ c4
  have c6 := gq_totalBlock_cov _ c5
  have c7 : RowsCovered (GQ.notesBlock M d
      (GQ.totalBlock (GQ.tableBlock d.line_items
        (GQ.pillsBlock (GQ.prepBlock (GQ.addressBlock d
          (GQ.headerBlock logoOk s0))))))).evs := by
    unfold GQ.notesBlock GQ.notesLoop
    exact gq_notesLoopF_cov _ _ _ _ c6
  set sf := GQ.notesBlock M d
      (GQ.totalBlock (GQ.tableBlock d.line_items
        (GQ.pillsBlock (GQ.prepBlock (GQ.addressBlock d
          (GQ.headerBlock logoOk s0)))))) with hsf
  show RowsCovered (sf.evs ++ [Ev.footer sf.page])
  exact rowsCovered_append _ _ c7 (by simp [isRowEv])

end PdfX

namespace PdfX

theorem no_header_of_no_table (tl : List Ev) (h : tl.filter isTableEv = []) :
    tl.filter isHeaderEv = [] := by
  rw [List.filter_eq_nil_iff] at h ⊢
  intro e he
  have := h e he
  cases e <;> simp_all [isTableEv, isHeaderEv]

theorem no_table_of_neutral (tl : List Ev) (a : tl.all isNeutral = true) :
    tl.filter isTableEv = [] :=
  List.filter_eq_nil_iff.mpr
    (fun e he => by simp [isTableEv_of_neutral e (List.all_eq_true.mp a e he)])

theorem app_buildReviewPdf_split (M : Measure) (logoOk : Bool) (p : App.Payload) :
    ∃ t1 t2 t3 pg,
      (App.buildReviewPdf M logoOk p).evs = t1 ++ (t2 ++ (t3 ++ [Ev.footer pg])) ∧
      t1.all isNeutral = true ∧
      t2.filterMap kvIdx = [] ∧ t2.filterMap secIdx = [] ∧
      (t2.filter isHeaderEv).length ≤ 1 ∧
      (p.line_items = [] →
        pstrip (pyStrOr p.document_type) ≠ "Consignment Note".toList →
        pstrip (pyStrOr p.document_type) ≠ "Waste Transfer Note".toList → t2 = []) ∧
      t3.filterMap kvIdx = List.range' 0 16 ∧
      t3.filterMap secIdx = List.range' 0 4 ∧
      t3.filter isTableEv = [] := by
  unfold App.buildReviewPdf
  dsimp only
  set s0 : RS := ⟨PAGE_H - App.MARGIN, 1, []⟩ with hs0
  obtain ⟨u1, e1, a1⟩ := app_headerBlock_neutral logoOk s0
  set s1 := App.headerBlock logoOk s0 with hs1
  obtain ⟨u2, e2, a2⟩ := app_titleBlock_neutral p.service_description s1
  set s2 := App.titleBlock p.service_description s1 with hs2
  obtain ⟨u3, e3, a3⟩ := app_addressBlock_neutral p.supplier_address s2
  set s3 := App.addressBlock p.supplier_address s2 with hs3
  obtain ⟨u4, e4, a4⟩ := app_prepBlock_neutral s3
  set s4 := App.prepBlock s3 with hs4
  obtain ⟨u5, e5, a5⟩ := app_pillsBlock_neutral s4
  set s5 := App.pillsBlock s4 with hs5
  obtain ⟨u6, e6, k6, x6, hd6⟩ := app_tableBlock_tail p.line_items p.document_type s5
  set s6 := App.tableBlock p.line_items p.document_type s5 with hs6
  obtain ⟨u7, e7, -, f7, g7, tb7⟩ := app_sectionsGo_tail M (App.sectionsOf p) 0 s6 0
  have e7' : (App.sectionsBlock M p s6).evs = s6.evs ++ u7 := by
    unfold App.sectionsBlock
    rw [show ∀ st : RS, ∀ d : ℤ, (st.down d).evs = st.evs from fun _ _ => rfl]
    exact e7
  set s7 := App.sectionsBlock M p s6 with hs7
  obtain ⟨u8, e8, a8⟩ := app_caveatsBlock_neutral M p.special_instructions s7
  set s8 := App.caveatsBlock M p.special_instructions s7 with hs8
  refine ⟨u1 ++ (u2 ++ (u3 ++ (u4 ++ u5))), u6, u7 ++ u8, s8.page, ?_, ?_, k6, x6, hd6,
    ?_, ?_, ?_, ?_⟩
  · show (s8.emit (.footer s8.page)).evs = _
    rw [show (s8.emit (Ev.footer s8.page)).evs = s8.evs ++ [Ev.footer s8.page] from rfl,
      e8, e7', e6, e5, e4, e3, e2, e1, show s0.evs = [] from rfl]
    simp [List.append_assoc]
  · simp only [List.all_append, Bool.and_eq_true]
    exact ⟨a1, a2, a3, a4, a5⟩
  · intro h0 h1 h2
    have hemp : s6 = s5 := by
      rw [hs6, h0]
      exact app_tableBlock_empty p.document_type s5 ⟨h1, h2⟩
    rw [hemp] at e6
    have hl := congrArg List.length e6
    simp at hl
    exact hl
  · rw [List.filterMap_append,
      show u7.filterMap kvIdx = List.range' 0 16 from f7,
      List.filterMap_eq_nil_iff.mpr
        (fun e he => kvIdx_of_neutral e (List.all_eq_true.mp a8 e he)),
      List.append_nil]
  · rw [List.filterMap_append,
      show u7.filterMap secIdx = List.range' 0 4 from g7,
      List.filterMap_eq_nil_iff.mpr
        (fun e he => secIdx_of_neutral e (List.all_eq_true.mp a8 e he)),
      List.append_nil]
  · rw [List.filter_append, tb7, no_table_of_neutral u8 a8]
    rfl

end PdfX

namespace PdfX

/-- C2 (amended): in generate_quote.py every row's `ensure_space` carries
`draw_table_header` as its redraw callback, so every physical page holding a
line-item row also holds a table header; in app.py `ensure_space` accepts no
redraw callback, so the review table's header is drawn at most once per
document and continuation pages of a long table carry rows with no header. -/
theorem claim2_header_repetition :
    (∀ (M : Measure) (logoOk : Bool) (d : GQ.GQData),
      RowsCovered (GQ.generatePdf M logoOk d).evs) ∧
    (∀ (M : Measure) (logoOk : Bool) (p : App.Payload),
      ((App.buildReviewPdf M logoOk p).evs.filter isHeaderEv).length ≤ 1) := by
  refine ⟨gq_generatePdf_covered, ?_⟩
  intro M logoOk p
  obtain ⟨t1, t2, t3, pg, hevs, a1, -, -, hd2, -, -, -, tb3⟩ :=
    app_buildReviewPdf_split M logoOk p
  rw [hevs]
  simpa [List.filter_append, neutral_no_header t1 a1, no_header_of_no_table t3 tb3,
    isHeaderEv] using hd2

set_option maxRecDepth 100000 in
/-- C2 counterexample: with 25 identical single-line items app.py's review
table overflows onto page 2, which carries line-item rows (e.g. row 19) but
no table header, refuting the claim that the header is drawn on every
physical page that contains a row. -/
theorem claim2_counterexample :
    Ev.tableRow 19 2 ∈ (App.buildReviewPdf M0 false cPayload).evs ∧
    Ev.tableHeader 2 ∉ (App.buildReviewPdf M0 false cPayload).evs := by
  decide

/-- C5: both renderers are pure functions of the content model, the text
measure and the drawing-surface capabilities: two independent renders with
equal inputs produce the same page count and the same event trace (hence the
same per-block page assignment). -/
theorem claim5_determinism (M1 M2 : Measure) (l1 l2 : Bool)
    (d1 d2 : GQ.GQData) (p1 p2 : App.Payload)
    (hM : M1 = M2) (hl : l1 = l2) (hd : d1 = d2) (hp : p1 = p2) :
    (GQ.generatePdf M1 l1 d1).page = (GQ.generatePdf M2 l2 d2).page ∧
    (GQ.generatePdf M1 l1 d1).evs = (GQ.generatePdf M2 l2 d2).evs ∧
    (App.buildReviewPdf M1 l1 p1).page = (App.buildReviewPdf M2 l2 p2).page ∧
    (App.buildReviewPdf M1 l1 p1).evs = (App.buildReviewPdf M2 l2 p2).evs := by
  subst hM hl hd hp
  exact ⟨rfl, rfl, rfl, rfl⟩

/-- C5 witness: determinism instantiated at concrete inputs. -/
theorem claim5_witness :
    (GQ.generatePdf M0 true gqData0).page = (GQ.generatePdf M0 true gqData0).page ∧
    (GQ.generatePdf M0 true gqData0).evs = (GQ.generatePdf M0 true gqData0).evs ∧
    (App.buildReviewPdf M0 true pay0).page = (App.buildReviewPdf M0 true pay0).page ∧
    (App.buildReviewPdf M0 true pay0).evs = (App.buildReviewPdf M0 true pay0).evs :=
  claim5_determinism M0 M0 true true gqData0 gqData0 pay0 pay0 rfl rfl rfl rfl

/-- C6 (amended): app.py's review renderer with zero line items (and a
document type that injects no £40 row) emits no table events at all while
still emitting all four titled sections and their sixteen key/value rows;
generate_quote.py, by contrast, draws the table header and the total band
unconditionally even with zero items (see the counterexample). -/
theorem claim6_zero_items (M : Measure) (logoOk : Bool) (p : App.Payload)
    (h0 : p.line_items = [])
    (h1 : pstrip (pyStrOr p.document_type) ≠ "Consignment Note".toList)
    (h2 : pstrip (pyStrOr p.document_type) ≠ "Waste Transfer Note".toList) :
    (App.buildReviewPdf M logoOk p).evs.filter isTableEv = [] ∧
    (App.buildReviewPdf M logoOk p).evs.filterMap secIdx = List.range' 0 4 ∧
    (App.buildReviewPdf M logoOk p).evs.filterMap kvIdx = List.range' 0 16 := by
  obtain ⟨t1, t2, t3, pg, hevs, a1, k2, x2, -, hcond, f3, g3, tb3⟩ :=
    app_buildReviewPdf_split M logoOk p
  have ht2 : t2 = [] := hcond h0 h1 h2
  subst ht2
  rw [hevs]
  refine ⟨?_, ?_, ?_⟩
  · simp [List.filter_append, no_table_of_neutral t1 a1, tb3, isTableEv]
  · have n1 : t1.filterMap secIdx = [] := List.filterMap_eq_nil_iff.mpr
      (fun e he => secIdx_of_neutral e (List.all_eq_true.mp a1 e he))
    simp [List.filterMap_append, n1, g3, secIdx]
  · have n1 : t1.filterMap kvIdx = [] := List.filterMap_eq_nil_iff.mpr
      (fun e he => kvIdx_of_neutral e (List.all_eq_true.mp a1 e he))
    simp [List.filterMap_append, n1, f3, kvIdx]

/-- C6 witness: the empty review payload renders no table events and all
sixteen key/value rows across the four sections. -/
theorem claim6_witness :
    (App.buildReviewPdf M0 true pay0).evs.filter isTableEv = [] ∧
    (App.buildReviewPdf M0 true pay0).evs.filterMap secIdx = List.range' 0 4 ∧
    (App.buildReviewPdf M0 true pay0).evs.filterMap kvIdx = List.range' 0 16 :=
  claim6_zero_items M0 true pay0 rfl (by decide) (by decide)

set_option maxRecDepth 100000 in
/-- C6 counterexample: generate_quote.py draws the itemized-table header and
the total band even when the quote has zero line items, refuting the claim
that the table section is omitted entirely. -/
theorem claim6_counterexample :
    Ev.tableHeader 1 ∈ (GQ.generatePdf M0 false gqData0).evs ∧
    Ev.totalBand 1 ∈ (GQ.generatePdf M0 false gqData0).evs := by
  decide

/-- C9: across one review render the key/value row counter runs 0..15 with no
reset between sections or across page breaks, so every pair of consecutively
drawn key/value rows has opposite shading parity. -/
theorem claim9_row_parity (M : Measure) (logoOk : Bool) (p : App.Payload) :
    (App.buildReviewPdf M logoOk p).evs.filterMap kvIdx = List.range' 0 16 ∧
    List.Chain' (fun a b => a % 2 ≠ b % 2)
      ((App.buildReviewPdf M logoOk p).evs.filterMap kvIdx) := by
  obtain ⟨t1, t2, t3, pg, hevs, a1, k2, -, -, -, f3, -, -⟩ :=
    app_buildReviewPdf_split M logoOk p
  have n1 : t1.filterMap kvIdx = [] := List.filterMap_eq_nil_iff.mpr
    (fun e he => kvIdx_of_neutral e (List.all_eq_true.mp a1 e he))
  have hkv : (App.buildReviewPdf M logoOk p).evs.filterMap kvIdx =
      List.range' 0 16 := by
    rw [hevs]
    simp [List.filterMap_append, n1, k2, f3, kvIdx]
  refine ⟨hkv, ?_⟩
  rw [hkv, show List.range' 0 16 =
    [0, 1, 2, 3, 4, 5, 6, 7, 8, 9, 10, 11, 12, 13, 14, 15] from rfl]
  simp [List.chain'_cons]

end PdfX
